import Mathlib

/-!
# Verification of the score-reader Identity Registry and Rating Engine

Shallow embedding of the `stats_reader` package: the reference manager
(`reference_manager.py`), the ELO rating generators (`elo_ladder.py`,
`player_elo_ladder.py`, `role_elo_calculator.py`) and the ingestion modules
(`modules/match_processor.py`, `modules/player_processor.py`).

Conventions of the embedding:
* SQLite tables are lists of records, in insertion order; `AUTOINCREMENT`
  row ids are modelled by explicit `next…Id` counters.
* Python / SQLite strings are Lean `String`s.  `UPPER` (SQLite) and
  `str.upper` are modelled by ASCII `Char.toUpper`, SQLite `TRIM` strips
  `' '` only, Python `str.strip()` strips whitespace.
* SQLite `LIKE` is case-insensitive on ASCII; the fixed patterns
  `%x%` / `x%` / `%x` used by the source are modelled by case-folded
  infix / prefix / suffix tests, which is the exact `LIKE` semantics for
  needles that contain no `%` / `_` metacharacters.  SQLite `=` on text is
  case-sensitive and is modelled by string equality.
* Float arithmetic of the ELO computation is modelled over `ℝ`
  (`10 ** e` is real exponentiation).
* Interactive `input()` calls consume the head of an explicit list of
  input strings; a computation that would keep prompting past the end of
  the list returns `none`.
* `difflib.SequenceMatcher`-based fuzzy scoring and SHA-256 hashing are
  opaque: they are taken as parameters of the functions that use them.
-/

/-! ## String utilities -/

/-- ASCII upper-casing of a string, the semantics of SQLite `UPPER` and of
Python `str.upper` on the ASCII names handled by the program. -/
def upperStr (s : String) : String := ⟨s.data.map Char.toUpper⟩

/-- The character list of `upperStr s`; convenient for the `LIKE` tests. -/
def upperData (s : String) : List Char := s.data.map Char.toUpper

/-- SQLite `TRIM`: strip space characters (only `' '`) from both ends. -/
def sqlTrim (s : String) : String :=
  ⟨((s.data.dropWhile (· == ' ')).reverse.dropWhile (· == ' ')).reverse⟩

/-- Python `str.strip()`: strip whitespace from both ends. -/
def pyStrip (s : String) : String :=
  ⟨((s.data.dropWhile Char.isWhitespace).reverse.dropWhile Char.isWhitespace).reverse⟩

/-- Python `str.strip(chars)`: strip any of the given characters from both
ends. -/
def pyStripSet (cs : List Char) (s : String) : String :=
  ⟨((s.data.dropWhile (cs.contains ·)).reverse.dropWhile (cs.contains ·)).reverse⟩

/-- Python `str.split(',')`, on character lists: split at every comma,
keeping empty components (`split` of the empty string is `[[]]`). -/
def splitComma : List Char → List (List Char)
  | [] => [[]]
  | c :: rest =>
    if c = ',' then [] :: splitComma rest
    else
      match splitComma rest with
      | [] => [[c]]
      | t :: ts => (c :: t) :: ts

/-- Python `str.split(',')` on strings. -/
def pySplitComma (s : String) : List String := (splitComma s.data).map (⟨·⟩)

/-- Python `",".join(…)`. -/
def joinComma : List String → String
  | [] => ""
  | [a] => a
  | a :: b :: rest => a ++ "," ++ joinComma (b :: rest)

/-- `pat` occurs at the start of `s` (semantics of `LIKE 'pat%'` after both
sides were case-folded; exact for metacharacter-free `pat`). -/
def leadMatch (pat s : List Char) : Bool := s.take pat.length == pat

/-- `pat` occurs at the end of `s` (semantics of `LIKE '%pat'`). -/
def trailMatch (pat s : List Char) : Bool := s.drop (s.length - pat.length) == pat

/-- `pat` occurs somewhere inside `s` (semantics of `LIKE '%pat%'`, and of
Python's `pat in s`). -/
def innerMatch (pat : List Char) : List Char → Bool
  | [] => pat == []
  | c :: rest => leadMatch pat (c :: rest) || innerMatch pat rest

/-- Python `str.capitalize()`: first character upper-cased, the rest
lower-cased (ASCII). -/
def pyCapitalize (s : String) : String :=
  match s.data with
  | [] => ""
  | c :: rest => ⟨c.toUpper :: rest.map Char.toLower⟩

/-- Python `sub in s` for strings (case-sensitive substring test). -/
def pyIn (sub s : String) : Bool := innerMatch sub.data s.data

/-- One step of SQLite `LIKE` matching: `%` matches any sequence of
characters (including none), `_` matches exactly one character, and every
other pattern character compares ASCII case-insensitively — SQLite's
default `LIKE` semantics.  The recursion is bounded by a fuel argument so
the definition stays structurally recursive; one unit of fuel is spent per
step and every step shortens the pattern or the string, so
`pattern.length + s.length` units always suffice (see the `likeFuel`
lemmas). -/
def likeFuel : Nat → List Char → List Char → Bool
  | _, [], s => s.isEmpty
  | 0, _ :: _, _ => false
  | n + 1, p :: ps, s =>
    if p = '%' then
      likeFuel n ps s ||
        (match s with
         | [] => false
         | _ :: s' => likeFuel n (p :: ps) s')
    else
      match s with
      | [] => false
      | c :: s' =>
        (if p = '_' then true else p.toUpper == c.toUpper) && likeFuel n ps s'

/-- SQLite `s LIKE pattern` (the default case-insensitive `LIKE`; the
interpolated pattern's `%` and `_` act as wildcards). -/
def sqlLike (pattern s : String) : Bool :=
  likeFuel (pattern.data.length + s.data.length) pattern.data s.data

/-! ## Reference database (`reference_manager.py`) -/

/-- A row of the `ref_teams` table: id, unique name, and the
comma-separated alias text (nullable). -/
structure RefTeam where
  id : Nat
  name : String
  aliasText : Option String
deriving DecidableEq, Repr

/-- A row of the `ref_players` table: id, unique name, optional primary
team, optional primary role, comma-separated alias text (nullable), and
the source file it was added from (nullable). -/
structure RefPlayer where
  id : Nat
  name : String
  primaryTeamId : Option Nat
  primaryRole : Option String
  aliasText : Option String
  sourceFile : Option String
deriving DecidableEq, Repr

/-- The reference database (`ReferenceDatabase`): the two tables plus the
`AUTOINCREMENT` counters. -/
structure RefDb where
  teams : List RefTeam
  players : List RefPlayer
  nextTeamId : Nat
  nextPlayerId : Nat
deriving DecidableEq, Repr

/-- First `WHERE` clause of `ReferenceDatabase.get_player`:
`UPPER(TRIM(p.name)) = UPPER(?)` — the stored name is space-trimmed and
both sides are upper-cased. -/
def get_player_name_cond (rawName : String) (p : RefPlayer) : Bool :=
  upperStr (sqlTrim p.name) == upperStr rawName

/-- Second `WHERE` clause of `ReferenceDatabase.get_player`:
`p.alias LIKE '%,?,%' OR p.alias LIKE '?,%' OR p.alias LIKE '%,?' OR
p.alias = ?`.  The three `LIKE` tests are case-insensitive, the final `=`
is case-sensitive; a `NULL` alias matches nothing. -/
def get_player_alias_cond (rawName : String) (p : RefPlayer) : Bool :=
  match p.aliasText with
  | none => false
  | some a =>
      sqlLike ("%," ++ rawName ++ ",%") a ||
      sqlLike (rawName ++ ",%") a ||
      sqlLike ("%," ++ rawName) a ||
      a == rawName

/-- `ReferenceDatabase.get_player`: exact name lookup first, then the
whole-token alias lookup; `fetchone` returns the first matching row in
table order. -/
def RefDb.get_player (ref : RefDb) (rawName : String) : Option RefPlayer :=
  match ref.players.find? (get_player_name_cond rawName) with
  | some p => some p
  | none => ref.players.find? (get_player_alias_cond rawName)

/-- The `t.name` column obtained by `get_player`'s
`LEFT JOIN ref_teams t ON p.primary_team_id = t.id`. -/
def RefDb.teamNameOf (ref : RefDb) (p : RefPlayer) : Option String :=
  match p.primaryTeamId with
  | none => none
  | some tid => (ref.teams.find? (fun t => t.id == tid)).map (·.name)

/-- Role validation in `ReferenceDatabase.add_player`: a non-empty role
that is not `Farmer`/`Flex`/`Support` is replaced by `NULL` (Python's
truthiness check keeps `None` and `""` as they are). -/
def validateRole (primaryRole : Option String) : Option String :=
  match primaryRole with
  | none => none
  | some r =>
      if r ≠ "" ∧ ¬ (["Farmer", "Flex", "Support"].contains r) then none else some r

/-- `ReferenceDatabase.add_player`.  The `INSERT` raises
`sqlite3.IntegrityError` exactly when the (case-sensitively) unique `name`
column collides; the handler then returns the existing row's id and the
table is left unchanged.  Aliases are not consulted.  The `alias`
argument is the comma-joined alias text (the Python list form is joined
before the insert). -/
def RefDb.add_player (ref : RefDb) (name : String) (primaryTeamId : Option Nat)
    (aliasText : Option String) (primaryRole : Option String)
    (sourceFile : Option String) : Option Nat × RefDb :=
  match ref.players.find? (fun p => p.name == name) with
  | some p => (some p.id, ref)
  | none =>
      (some ref.nextPlayerId,
       { ref with
          players := ref.players ++
            [⟨ref.nextPlayerId, name, primaryTeamId, validateRole primaryRole,
              aliasText, sourceFile⟩],
          nextPlayerId := ref.nextPlayerId + 1 })

/-- The alias-text parsing step of `ReferenceDatabase.add_player_alias`:
split the stored comma-joined text and strip each component; `NULL` or
`""` parse as no aliases.  `add_player_alias` strips the new alias,
appends it if new and non-empty, re-joins and stores; an already-present
alias is a no-op success, an empty (stripped) alias is a failure. -/
def parsedAliases (p : RefPlayer) : List String :=
  match p.aliasText with
  | none => []
  | some s => if s == "" then [] else (pySplitComma s).map pyStrip

/-- `ReferenceDatabase.add_player_alias` continued: see `parsedAliases` for
the alias-text parsing (`[a.strip() for a in current_alias_str.split(',')]`,
with a falsy `None`/`""` parsed as no aliases). -/
def RefDb.add_player_alias (ref : RefDb) (playerId : Nat) (newAlias : String) :
    Bool × RefDb :=
  match ref.players.find? (fun p => p.id == playerId) with
  | none => (false, ref)
  | some p =>
      let aliases : List String := parsedAliases p
      let na := pyStrip newAlias
      if na ≠ "" ∧ na ∉ aliases then
        let updated := joinComma (aliases ++ [na])
        (true,
         { ref with
            players := ref.players.map (fun q =>
              if q.id == playerId then { q with aliasText := some updated } else q) })
      else if na ∈ aliases then (true, ref)
      else (false, ref)

/-- `ReferenceDatabase.get_team`: exact (case-sensitive) name match; with
`fuzzy_match`, an `alias LIKE '%name%'` substring probe and then the
`difflib` scoring loop, which is taken as the opaque parameter
`teamFuzzy`. -/
def RefDb.get_team (ref : RefDb) (name : String) (fuzzyMatch : Bool)
    (teamFuzzy : List RefTeam → String → Option RefTeam) : Option RefTeam :=
  match ref.teams.find? (fun t => t.name == name) with
  | some t => some t
  | none =>
      if !fuzzyMatch then none
      else
        match ref.teams.find? (fun t =>
            match t.aliasText with
            | some a => sqlLike ("%" ++ name ++ "%") a
            | none => false) with
        | some t => some t
        | none => teamFuzzy ref.teams name

/-! ## Stats database (`modules/database_utils.py` schema) -/

/-- A row of the `seasons` table. -/
structure SeasonRow where
  id : Nat
  name : String
deriving DecidableEq, Repr

/-- A row of the `teams` table. -/
structure TeamRow where
  id : Nat
  name : String
  referenceId : Option Nat
  wins : Nat
  losses : Nat
deriving DecidableEq, Repr

/-- A row of the `matches` table.  `matchDate` is the timestamp text
(`YYYY-MM-DD HH:MM:SS`; its lexicographic string order is the order SQLite
uses for `ORDER BY m.match_date`). -/
structure MatchRow where
  id : Nat
  seasonId : Nat
  matchDate : String
  imperialTeamId : Nat
  rebelTeamId : Nat
  winner : String
  filename : String
  matchType : String
deriving DecidableEq, Repr

/-- A row of the `players` table. -/
structure StatsPlayerRow where
  id : Nat
  name : String
  referenceId : Option Nat
  playerHash : String
deriving DecidableEq, Repr

/-- A row of the `player_stats` table. -/
structure PlayerStatRow where
  matchId : Nat
  playerId : Nat
  playerName : String
  playerHash : String
  teamId : Option Nat
  faction : String
  position : String
  role : Option String
  score : Int
  kills : Int
  deaths : Int
  assists : Int
  aiKills : Int
  capShipDamage : Int
  isSubbing : Nat
deriving DecidableEq, Repr

/-- The whole stats database. -/
structure Db where
  seasons : List SeasonRow
  teams : List TeamRow
  matchTable : List MatchRow
  players : List StatsPlayerRow
  playerStats : List PlayerStatRow
  nextSeasonId : Nat
  nextTeamId : Nat
  nextMatchId : Nat
  nextPlayerId : Nat
deriving DecidableEq, Repr

/-! ## ELO calculation (`elo_ladder.py`, `player_elo_ladder.py`) -/

/-- `calculate_expected_outcome`: probability of side A winning. -/
noncomputable def calculate_expected_outcome (rating_a rating_b : ℝ) : ℝ :=
  1.0 / (1.0 + (10 : ℝ) ^ ((rating_b - rating_a) / 400))

/-- `calculate_new_rating`: new ELO rating after a match. -/
noncomputable def calculate_new_rating
    (rating expected_outcome actual_outcome k_factor : ℝ) : ℝ :=
  rating + k_factor * (actual_outcome - expected_outcome)

/-- Python `round(x)` on floats: round half to even. -/
noncomputable def pyRound (x : ℝ) : ℤ :=
  if Int.fract x = 1 / 2 then (if Even ⌊x⌋ then ⌊x⌋ else ⌊x⌋ + 1) else round x

/-- Python `round(x, 1)`: round to one decimal digit, half to even. -/
noncomputable def pyRound1 (x : ℝ) : ℝ := (pyRound (x * 10) : ℝ) / 10

/-- The `WHERE m.winner IN ('IMPERIAL', 'REBEL')` filter: the match has a
decisive recorded outcome. -/
def decisiveB (m : MatchRow) : Bool := m.winner == "IMPERIAL" || m.winner == "REBEL"

/-- The `JOIN seasons s ON m.season_id = s.id` of the ladder queries: the
match's season exists (an inner join drops rows without a season). -/
def hasSeason (db : Db) (m : MatchRow) : Bool :=
  db.seasons.any (fun s => s.id == m.seasonId)

/-- The season name selected by that join (defaulting to `""`; the rows
reaching it are filtered by `hasSeason`). -/
def seasonNameOf (db : Db) (m : MatchRow) : String :=
  ((db.seasons.find? (fun s => s.id == m.seasonId)).map (·.name)).getD ""

/-- The `JOIN teams …` of the team-ladder queries: both team rows exist. -/
def hasTeams (db : Db) (m : MatchRow) : Bool :=
  db.teams.any (fun t => t.id == m.imperialTeamId) &&
  db.teams.any (fun t => t.id == m.rebelTeamId)

/-- Team name lookup for the team-ladder joins (defaulting to `""`). -/
def teamNameIn (db : Db) (tid : Nat) : String :=
  ((db.teams.find? (fun t => t.id == tid)).map (·.name)).getD ""

/-- `ORDER BY m.match_date, m.id` as a relation on match rows. -/
def dateIdLe (a b : MatchRow) : Prop :=
  a.matchDate < b.matchDate ∨ (a.matchDate = b.matchDate ∧ a.id ≤ b.id)

instance : DecidableRel dateIdLe := fun a b => by
  unfold dateIdLe; infer_instance

/-- `ORDER BY m.match_date` (no tiebreak) as a relation on match rows. -/
def dateLe (a b : MatchRow) : Prop := a.matchDate ≤ b.matchDate

instance : DecidableRel dateLe := fun a b => by
  unfold dateLe; infer_instance

/-- The rows admissible as the result of a query with
`WHERE … ORDER BY keys`: any permutation of the filtered table that is
sorted for the `ORDER BY` relation (SQLite fixes no further order among
equal keys). -/
def queryResultOk (pred : MatchRow → Bool) (ord : MatchRow → MatchRow → Prop)
    (tbl result : List MatchRow) : Prop :=
  result.Perm (tbl.filter pred) ∧ result.Sorted ord

/-- The match filter of `generate_player_elo_ladder` (and of
`generate_role_specific_elo`): decisive, of the requested type, with a
season row. -/
def playerQueryPred (db : Db) (matchType : String) (m : MatchRow) : Bool :=
  decisiveB m && m.matchType == matchType && hasSeason db m

/-- The match filter of `generate_elo_ladder`: additionally joins both
team rows. -/
def teamQueryPred (db : Db) (matchType : String) (m : MatchRow) : Bool :=
  decisiveB m && m.matchType == matchType && hasTeams db m && hasSeason db m

/-- The match filter of `generate_combined_ladder`: all decisive matches,
joined with teams and seasons, with no match-type restriction. -/
def combinedQueryPred (db : Db) (m : MatchRow) : Bool :=
  decisiveB m && hasTeams db m && hasSeason db m

/-- The ordered match stream of `generate_player_elo_ladder` /
`generate_role_specific_elo` (`ORDER BY m.match_date, m.id`), determinized
by a stable sort of the table order. -/
def playerMatchStream (db : Db) (matchType : String) : List MatchRow :=
  (db.matchTable.filter (playerQueryPred db matchType)).mergeSort
    (fun a b => decide (dateIdLe a b))

/-- The ordered match stream of `generate_elo_ladder`. -/
def teamMatchStream (db : Db) (matchType : String) : List MatchRow :=
  (db.matchTable.filter (teamQueryPred db matchType)).mergeSort
    (fun a b => decide (dateIdLe a b))

/-- The ordered match stream of `generate_combined_ladder`
(`ORDER BY m.match_date` only). -/
def combinedMatchStream (db : Db) : List MatchRow :=
  (db.matchTable.filter (combinedQueryPred db)).mergeSort
    (fun a b => decide (dateLe a b))

/-- The imperial roster of a match:
`SELECT … FROM player_stats WHERE match_id = ? AND faction = 'IMPERIAL'`. -/
def imperialRoster (db : Db) (m : MatchRow) : List PlayerStatRow :=
  db.playerStats.filter (fun s => s.matchId == m.id && s.faction == "IMPERIAL")

/-- The rebel roster of a match. -/
def rebelRoster (db : Db) (m : MatchRow) : List PlayerStatRow :=
  db.playerStats.filter (fun s => s.matchId == m.id && s.faction == "REBEL")

/-- An ELO rating table (`elo_ratings` dict).  The source pre-seeds every
player/team id with `starting_elo` and also lazily defaults missing ids to
`starting_elo`, so the dict is semantically a total function that starts
constant. -/
abbrev Ratings := Nat → ℝ

/-- Pointwise dict update. -/
noncomputable def updateRating (r : Ratings) (subjectId : Nat) (v : ℝ) : Ratings :=
  fun i => if i = subjectId then v else r i

/-- Team average used by the player/role engines: arithmetic mean of the
roster members' current ratings. -/
noncomputable def sideAvg (r : Ratings) (side : List PlayerStatRow) : ℝ :=
  (side.map (fun p => r p.playerId)).sum / side.length

/-- `imperial_actual` for a decisive match (`1.0` on an `IMPERIAL` winner,
else `0.0`; the `else` branch of the source is the `REBEL` case). -/
noncomputable def imperialActual (m : MatchRow) : ℝ :=
  if m.winner = "IMPERIAL" then 1.0 else 0.0

/-- `rebel_actual` for a decisive match. -/
noncomputable def rebelActual (m : MatchRow) : ℝ :=
  if m.winner = "IMPERIAL" then 0.0 else 1.0

/-- One per-player history record (`old_rating`/`new_rating`/`rating_change`
entries of the player history JSON). -/
structure PlayerUpdate where
  playerId : Nat
  playerName : String
  oldRating : ℝ
  newRating : ℝ
  ratingChange : ℝ

/-- One match's entry of the player ELO history. -/
structure PlayerHistoryEvent where
  matchId : Nat
  matchDate : String
  season : String
  imperialPlayers : List PlayerUpdate
  rebelPlayers : List PlayerUpdate
  winner : String

/-- The sequential per-roster update loop of `generate_player_elo_ladder`:
each member's rating is replaced by `calculate_new_rating` at the shared
expected/actual values, and a history record is appended. -/
noncomputable def updateSide (kFactor expected actual : ℝ)
    (start : Ratings × List PlayerUpdate) (side : List PlayerStatRow) :
    Ratings × List PlayerUpdate :=
  side.foldl (fun st p =>
    let old := st.1 p.playerId
    let nw := calculate_new_rating old expected actual kFactor
    (updateRating st.1 p.playerId nw,
     st.2 ++ [⟨p.playerId, p.playerName, old, nw, nw - old⟩])) start

/-- State of the player ELO engine: the ratings dict plus the history. -/
structure PlayerEngineState where
  ratings : Ratings
  history : List PlayerHistoryEvent

/-- The body of the match loop of `generate_player_elo_ladder`: skip the
match when either roster is empty, otherwise compute the team averages,
the expected outcomes, update both rosters and append one history event. -/
noncomputable def processPlayerMatch (db : Db) (kFactor : ℝ)
    (st : PlayerEngineState) (m : MatchRow) : PlayerEngineState :=
  let imp := imperialRoster db m
  let reb := rebelRoster db m
  if imp.isEmpty || reb.isEmpty then st
  else
    let impExpected := calculate_expected_outcome (sideAvg st.ratings imp) (sideAvg st.ratings reb)
    let rebExpected := 1.0 - impExpected
    let r1 := updateSide kFactor impExpected (imperialActual m) (st.ratings, []) imp
    let r2 := updateSide kFactor rebExpected (rebelActual m) (r1.1, []) reb
    { ratings := r2.1,
      history := st.history ++
        [⟨m.id, m.matchDate, seasonNameOf db m, r1.2, r2.2, m.winner⟩] }

/-- The whole match loop, over an ordered stream. -/
noncomputable def processPlayerMatches (db : Db) (kFactor : ℝ)
    (init : PlayerEngineState) (ms : List MatchRow) : PlayerEngineState :=
  ms.foldl (processPlayerMatch db kFactor) init

/-- Initial engine state (every subject at `starting_elo`, empty history). -/
noncomputable def initialPlayerState (startingElo : ℝ) : PlayerEngineState :=
  ⟨fun _ => startingElo, []⟩

/-- The final state of the player engine of `generate_player_elo_ladder`. -/
noncomputable def playerEngineFinal (db : Db) (startingElo kFactor : ℝ)
    (matchType : String) : PlayerEngineState :=
  processPlayerMatches db kFactor (initialPlayerState startingElo)
    (playerMatchStream db matchType)

/-! ## Ladder construction (`elo_ladder.py`) -/

/-- `COUNT(DISTINCT ps.match_id)` of the per-player stats query: distinct
match ids among this player's stat rows whose (joined) match is decisive
and of the ladder's type. -/
def playerMatchesPlayed (db : Db) (matchType : String) (playerId : Nat) : Nat :=
  (((db.playerStats.filter (fun s => s.playerId == playerId &&
      db.matchTable.any (fun m => m.id == s.matchId && decisiveB m &&
        m.matchType == matchType))).map (·.matchId)).dedup).length

/-- `SUM(CASE WHEN faction won THEN 1 ELSE 0 END)` over the join of this
player's stat rows with the decisive matches of the type (one joined row
per stat-row/match pair). -/
def playerMatchesWon (db : Db) (matchType : String) (playerId : Nat) : Nat :=
  ((db.playerStats.filter (fun s => s.playerId == playerId)).map (fun s =>
    (db.matchTable.filter (fun m => m.id == s.matchId && decisiveB m &&
      m.matchType == matchType &&
      ((s.faction == "IMPERIAL" && m.winner == "IMPERIAL") ||
       (s.faction == "REBEL" && m.winner == "REBEL")))).length)).sum

/-- The symmetric losing count. -/
def playerMatchesLost (db : Db) (matchType : String) (playerId : Nat) : Nat :=
  ((db.playerStats.filter (fun s => s.playerId == playerId)).map (fun s =>
    (db.matchTable.filter (fun m => m.id == s.matchId && decisiveB m &&
      m.matchType == matchType &&
      ((s.faction == "IMPERIAL" && m.winner == "REBEL") ||
       (s.faction == "REBEL" && m.winner == "IMPERIAL")))).length)).sum

/-- A row of the final player ladder JSON. -/
structure PlayerLadderEntry where
  playerId : Nat
  playerName : String
  playerHash : String
  eloRating : ℤ
  matchesPlayed : Nat
  matchesWon : Nat
  matchesLost : Nat
  winRate : ℝ

/-- One player's ladder row (the dict appended by
`generate_player_elo_ladder`). -/
noncomputable def playerLadderEntryFor (db : Db) (matchType : String)
    (finalRatings : Ratings) (pl : StatsPlayerRow) : PlayerLadderEntry :=
  let played := playerMatchesPlayed db matchType pl.id
  let won := playerMatchesWon db matchType pl.id
  let lost := playerMatchesLost db matchType pl.id
  { playerId := pl.id
    playerName := pl.name
    playerHash := pl.playerHash
    eloRating := pyRound (finalRatings pl.id)
    matchesPlayed := played
    matchesWon := won
    matchesLost := lost
    winRate := if played > 0 then pyRound1 ((won : ℝ) / played * 100) else 0 }

/-- The player-ladder rows before sorting: looping over the `players`
table (every id of which was pre-seeded into `elo_ratings`, so the
`player_id in elo_ratings` test always holds), a row is appended only when
`matches_played > 0`. -/
noncomputable def playerLadderUnsorted (db : Db) (matchType : String)
    (finalRatings : Ratings) : List PlayerLadderEntry :=
  db.players.filterMap (fun pl =>
    if playerMatchesPlayed db matchType pl.id > 0 then
      some (playerLadderEntryFor db matchType finalRatings pl)
    else none)

/-- The sorted player ladder (`sort(key=elo_rating, reverse=True)`; Python's
sort is stable, as is `mergeSort`). -/
noncomputable def playerLadder (db : Db) (startingElo kFactor : ℝ)
    (matchType : String) : List PlayerLadderEntry :=
  (playerLadderUnsorted db matchType
      (playerEngineFinal db startingElo kFactor matchType).ratings).mergeSort
    (fun a b => b.eloRating ≤ a.eloRating)

/-- The rank pass: 1-based positions after sorting. -/
noncomputable def rankedPlayerLadder (db : Db) (startingElo kFactor : ℝ)
    (matchType : String) : List (Nat × PlayerLadderEntry) :=
  (playerLadder db startingElo kFactor matchType).enum.map
    (fun p => (p.1 + 1, p.2))

/-! ## Team ELO engine (`generate_elo_ladder`, `generate_combined_ladder`) -/

/-- One side's record in a team history event. -/
structure TeamUpdate where
  teamId : Nat
  teamName : String
  oldRating : ℝ
  newRating : ℝ
  ratingChange : ℝ

/-- One match's entry of the team ELO history. -/
structure TeamHistoryEvent where
  matchId : Nat
  matchDate : String
  season : String
  imperial : TeamUpdate
  rebel : TeamUpdate
  winner : String

/-- State of the team ELO engine. -/
structure TeamEngineState where
  ratings : Ratings
  history : List TeamHistoryEvent

/-- The body of the match loop of `generate_elo_ladder` (and of
`generate_combined_ladder`, which runs the identical update): the two
teams' ratings are updated directly, with no roster involvement. -/
noncomputable def processTeamMatch (db : Db) (kFactor : ℝ)
    (st : TeamEngineState) (m : MatchRow) : TeamEngineState :=
  let impRating := st.ratings m.imperialTeamId
  let rebRating := st.ratings m.rebelTeamId
  let impExpected := calculate_expected_outcome impRating rebRating
  let rebExpected := 1.0 - impExpected
  let newImp := calculate_new_rating impRating impExpected (imperialActual m) kFactor
  let newReb := calculate_new_rating rebRating rebExpected (rebelActual m) kFactor
  { ratings := updateRating (updateRating st.ratings m.imperialTeamId newImp)
      m.rebelTeamId newReb,
    history := st.history ++
      [⟨m.id, m.matchDate, seasonNameOf db m,
        ⟨m.imperialTeamId, teamNameIn db m.imperialTeamId, impRating, newImp,
          newImp - impRating⟩,
        ⟨m.rebelTeamId, teamNameIn db m.rebelTeamId, rebRating, newReb,
          newReb - rebRating⟩,
        m.winner⟩] }

/-- The team match loop over an ordered stream. -/
noncomputable def processTeamMatches (db : Db) (kFactor : ℝ)
    (init : TeamEngineState) (ms : List MatchRow) : TeamEngineState :=
  ms.foldl (processTeamMatch db kFactor) init

/-- Initial team engine state. -/
noncomputable def initialTeamState (startingElo : ℝ) : TeamEngineState :=
  ⟨fun _ => startingElo, []⟩

/-- Final state of `generate_elo_ladder`'s engine. -/
noncomputable def teamEngineFinal (db : Db) (startingElo kFactor : ℝ)
    (matchType : String) : TeamEngineState :=
  processTeamMatches db kFactor (initialTeamState startingElo)
    (teamMatchStream db matchType)

/-- Final state of `generate_combined_ladder`'s engine. -/
noncomputable def combinedEngineFinal (db : Db) (startingElo kFactor : ℝ) :
    TeamEngineState :=
  processTeamMatches db kFactor (initialTeamState startingElo)
    (combinedMatchStream db)

/-- `COUNT(*)` of the per-team stats query of `generate_elo_ladder`. -/
def teamMatchesPlayed (db : Db) (matchType : String) (teamId : Nat) : Nat :=
  (db.matchTable.filter (fun m =>
    (m.imperialTeamId == teamId || m.rebelTeamId == teamId) && decisiveB m &&
    m.matchType == matchType)).length

/-- Decisive matches the team won (of the given type). -/
def teamMatchesWon (db : Db) (matchType : String) (teamId : Nat) : Nat :=
  (db.matchTable.filter (fun m =>
    (m.imperialTeamId == teamId || m.rebelTeamId == teamId) && decisiveB m &&
    m.matchType == matchType &&
    ((m.imperialTeamId == teamId && m.winner == "IMPERIAL") ||
     (m.rebelTeamId == teamId && m.winner == "REBEL")))).length

/-- Decisive matches the team lost (of the given type). -/
def teamMatchesLost (db : Db) (matchType : String) (teamId : Nat) : Nat :=
  (db.matchTable.filter (fun m =>
    (m.imperialTeamId == teamId || m.rebelTeamId == teamId) && decisiveB m &&
    m.matchType == matchType &&
    ((m.imperialTeamId == teamId && m.winner == "REBEL") ||
     (m.rebelTeamId == teamId && m.winner == "IMPERIAL")))).length

/-- A row of the final team ladder JSON. -/
structure TeamLadderEntry where
  teamId : Nat
  teamName : String
  eloRating : ℤ
  matchesPlayed : Nat
  matchesWon : Nat
  matchesLost : Nat
  winRate : ℝ

/-- The team-ladder rows before sorting: looping over the `teams` table
(every id of which was pre-seeded into `elo_ratings`, so the membership
test always holds), a row is appended for EVERY team — `generate_elo_ladder`
has no `matches_played > 0` gate. -/
noncomputable def teamLadderEntryFor (db : Db) (matchType : String)
    (finalRatings : Ratings) (t : TeamRow) : TeamLadderEntry :=
  let played := teamMatchesPlayed db matchType t.id
  let won := teamMatchesWon db matchType t.id
  let lost := teamMatchesLost db matchType t.id
  { teamId := t.id
    teamName := t.name
    eloRating := pyRound (finalRatings t.id)
    matchesPlayed := played
    matchesWon := won
    matchesLost := lost
    winRate := if played > 0 then pyRound1 ((won : ℝ) / played * 100) else 0 }

noncomputable def teamLadderUnsorted (db : Db) (matchType : String)
    (finalRatings : Ratings) : List TeamLadderEntry :=
  db.teams.map (teamLadderEntryFor db matchType finalRatings)

/-- The sorted team ladder of `generate_elo_ladder`. -/
noncomputable def teamLadder (db : Db) (startingElo kFactor : ℝ)
    (matchType : String) : List TeamLadderEntry :=
  (teamLadderUnsorted db matchType
      (teamEngineFinal db startingElo kFactor matchType).ratings).mergeSort
    (fun a b => b.eloRating ≤ a.eloRating)

/-- The rank pass of the team ladder. -/
noncomputable def rankedTeamLadder (db : Db) (startingElo kFactor : ℝ)
    (matchType : String) : List (Nat × TeamLadderEntry) :=
  (teamLadder db startingElo kFactor matchType).enum.map (fun p => (p.1 + 1, p.2))

/-! ## Role-specific ELO engine (`role_elo_calculator.py`) -/

/-- One per-player record of the role histories (includes the per-match
role column). -/
structure RoleUpdate where
  playerId : Nat
  playerName : String
  role : Option String
  oldRating : ℝ
  newRating : ℝ
  ratingChange : ℝ

/-- One match's entry of a role (or general) history of
`generate_role_specific_elo`; also records the general team averages the
expected outcome was computed from. -/
structure RoleHistoryEvent where
  matchId : Nat
  matchDate : String
  season : String
  imperialPlayers : List RoleUpdate
  rebelPlayers : List RoleUpdate
  winner : String
  imperialAvgElo : ℝ
  rebelAvgElo : ℝ

/-- State of the role engine: the general ratings dict, one dict per role,
and the four histories. -/
structure RoleEngineState where
  general : Ratings
  flex : Ratings
  support : Ratings
  farmer : Ratings
  generalHistory : List RoleHistoryEvent
  flexHistory : List RoleHistoryEvent
  supportHistory : List RoleHistoryEvent
  farmerHistory : List RoleHistoryEvent

/-- The general-rating roster loop of `generate_role_specific_elo`
(updates every roster member, recording the role column). -/
noncomputable def updateGeneralSide (kFactor expected actual : ℝ)
    (start : Ratings × List RoleUpdate) (side : List PlayerStatRow) :
    Ratings × List RoleUpdate :=
  side.foldl (fun st p =>
    let old := st.1 p.playerId
    let nw := calculate_new_rating old expected actual kFactor
    (updateRating st.1 p.playerId nw,
     st.2 ++ [⟨p.playerId, p.playerName, p.role, old, nw, nw - old⟩])) start

/-- One of the three identical role-restricted roster loops: only members
whose per-match `role` column equals the pool's role are updated. -/
noncomputable def updateRoleSide (role : String) (kFactor expected actual : ℝ)
    (start : Ratings × List RoleUpdate) (side : List PlayerStatRow) :
    Ratings × List RoleUpdate :=
  side.foldl (fun st p =>
    if p.role = some role then
      let old := st.1 p.playerId
      let nw := calculate_new_rating old expected actual kFactor
      (updateRating st.1 p.playerId nw,
       st.2 ++ [⟨p.playerId, p.playerName, p.role, old, nw, nw - old⟩])
    else st) start

/-- Both factions of one role pool for one match: imperial roster first,
then rebel, each with its own expected/actual values. -/
noncomputable def roleStep (role : String) (kFactor impExpected impActual
    rebExpected rebActual : ℝ) (r : Ratings) (imp reb : List PlayerStatRow) :
    Ratings × List RoleUpdate × List RoleUpdate :=
  let ri := updateRoleSide role kFactor impExpected impActual (r, []) imp
  let rr := updateRoleSide role kFactor rebExpected rebActual (ri.1, []) reb
  (rr.1, ri.2, rr.2)

/-- A role history event is appended only `if imperial_…_history or
rebel_…_history` — i.e. when at least one member played the role. -/
noncomputable def appendRoleEvent (hist : List RoleHistoryEvent)
    (ev : RoleHistoryEvent) : List RoleHistoryEvent :=
  if ev.imperialPlayers.isEmpty ∧ ev.rebelPlayers.isEmpty then hist
  else hist ++ [ev]

/-- The body of the match loop of `generate_role_specific_elo`: skip on a
missing roster; compute both team averages FROM THE GENERAL ratings; update
the general pool (always) and each role pool (role-matching members only),
all with the same expected outcomes. -/
noncomputable def processRoleMatch (db : Db) (kFactor : ℝ)
    (st : RoleEngineState) (m : MatchRow) : RoleEngineState :=
  let imp := imperialRoster db m
  let reb := rebelRoster db m
  if imp.isEmpty || reb.isEmpty then st
  else
    let impAvg := sideAvg st.general imp
    let rebAvg := sideAvg st.general reb
    let impExpected := calculate_expected_outcome impAvg rebAvg
    let rebExpected := 1.0 - impExpected
    let impActual := imperialActual m
    let rebActual := rebelActual m
    let g1 := updateGeneralSide kFactor impExpected impActual (st.general, []) imp
    let g2 := updateGeneralSide kFactor rebExpected rebActual (g1.1, []) reb
    let fx := roleStep "Flex" kFactor impExpected impActual rebExpected rebActual st.flex imp reb
    let su := roleStep "Support" kFactor impExpected impActual rebExpected rebActual st.support imp reb
    let fa := roleStep "Farmer" kFactor impExpected impActual rebExpected rebActual st.farmer imp reb
    { general := g2.1
      flex := fx.1
      support := su.1
      farmer := fa.1
      generalHistory := st.generalHistory ++
        [⟨m.id, m.matchDate, seasonNameOf db m, g1.2, g2.2, m.winner, impAvg, rebAvg⟩]
      flexHistory := appendRoleEvent st.flexHistory
        ⟨m.id, m.matchDate, seasonNameOf db m, fx.2.1, fx.2.2, m.winner, impAvg, rebAvg⟩
      supportHistory := appendRoleEvent st.supportHistory
        ⟨m.id, m.matchDate, seasonNameOf db m, su.2.1, su.2.2, m.winner, impAvg, rebAvg⟩
      farmerHistory := appendRoleEvent st.farmerHistory
        ⟨m.id, m.matchDate, seasonNameOf db m, fa.2.1, fa.2.2, m.winner, impAvg, rebAvg⟩ }

/-- The role-engine match loop over an ordered stream. -/
noncomputable def processRoleMatches (db : Db) (kFactor : ℝ)
    (init : RoleEngineState) (ms : List MatchRow) : RoleEngineState :=
  ms.foldl (processRoleMatch db kFactor) init

/-- Initial role engine state: all four dicts at `starting_elo`. -/
noncomputable def initialRoleState (startingElo : ℝ) : RoleEngineState :=
  ⟨fun _ => startingElo, fun _ => startingElo, fun _ => startingElo,
   fun _ => startingElo, [], [], [], []⟩

/-- Final state of `generate_role_specific_elo`'s engine (the match stream
query is the same as the player engine's). -/
noncomputable def roleEngineFinal (db : Db) (startingElo kFactor : ℝ)
    (matchType : String) : RoleEngineState :=
  processRoleMatches db kFactor (initialRoleState startingElo)
    (playerMatchStream db matchType)

/-- Selector for the three role pools of the engine state, by the role
strings of the source. -/
noncomputable def rolePool (st : RoleEngineState) (role : String) : Ratings :=
  if role = "Flex" then st.flex
  else if role = "Support" then st.support
  else st.farmer

/-! ## Player processor (`modules/player_processor.py`) -/

/-- ASCII lower-casing (Python `str.lower` on the ASCII inputs handled). -/
def lowerStr (s : String) : String := ⟨s.data.map Char.toLower⟩

/-- A cached resolution: the `(player_id, canonical_name, player_hash)`
triple stored in `player_resolution_cache`; a skip is
`(None, raw_name, None)`. -/
structure ResolutionEntry where
  playerId : Option Nat
  canonicalName : String
  playerHash : Option String
deriving DecidableEq, Repr

/-- Combined mutable state threaded through ingestion: the stats database,
the optional reference database, and the per-run resolution cache. -/
structure ProcState where
  db : Db
  refDb : Option RefDb
  cache : List (String × ResolutionEntry)
deriving Repr

/-- Python dict lookup on the resolution cache. -/
def lookupCache (cache : List (String × ResolutionEntry)) (name : String) :
    Option ResolutionEntry :=
  (cache.find? (fun c => c.1 == name)).map (·.2)

/-- Python dict store `cache[name] = e`. -/
def cacheInsert (cache : List (String × ResolutionEntry)) (name : String)
    (e : ResolutionEntry) : List (String × ResolutionEntry) :=
  if cache.any (fun c => c.1 == name) then
    cache.map (fun c => if c.1 == name then (name, e) else c)
  else cache ++ [(name, e)]

/-- `choice.isdigit() and choice in options`: the options dict maps keys
`"1" … "n"` to the fuzzy candidates in order. -/
def selectOption (options : List RefPlayer) (choice : String) : Option RefPlayer :=
  (List.range options.length).findSome? (fun i =>
    if choice == toString (i + 1) then options[i]? else none)

/-- Outcome of the disambiguation loop of `get_or_create_player`. -/
inductive ResolveResult where
  | ok (refId : Nat) (canonicalName : String)
  | skipped
deriving DecidableEq, Repr

/-- The interactive `while not resolved` loop of `get_or_create_player`:
consumes choices from the input stream; `[Number]` selects a candidate,
`A[Number]` first adds the raw name as an alias, `C` runs `add_player` (a
`None` id falling back to an exact lookup), `AA` reads a further input
naming an existing reference player to alias the raw name onto, `S` skips,
anything else re-prompts.  Running out of inputs while unresolved is
`none`. -/
def resolveLoop (playerName : String) (options : List RefPlayer) :
    RefDb → List String → Option (ResolveResult × RefDb × List String)
  | _, [] => none
  | ref, inp :: rest =>
    let choice := upperStr (pyStrip inp)
    match selectOption options choice with
    | some sel => some (.ok sel.id sel.name, ref, rest)
    | none =>
      match choice.data with
      | 'A' :: ctail =>
        match selectOption options ⟨ctail⟩ with
        | some sel =>
          let ar := ref.add_player_alias sel.id playerName
          if ar.1 then some (.ok sel.id sel.name, ar.2, rest)
          else resolveLoop playerName options ar.2 rest
        | none =>
          if choice == "C" then
          let ar := ref.add_player playerName none none none none
          match ar.1 with
          | some newId => some (.ok newId playerName, ar.2, rest)
          | none =>
            match ar.2.get_player playerName with
            | some p => some (.ok p.id p.name, ar.2, rest)
            | none => resolveLoop playerName options ar.2 rest
        else if choice == "AA" then
          if ref.players.isEmpty then resolveLoop playerName options ref rest
          else
            match rest with
            | [] => none
            | tidInp :: rest' =>
              match (pyStrip tidInp).toInt? with
              | none => resolveLoop playerName options ref rest'
              | some tid =>
                match ref.players.find? (fun p => (p.id : Int) == tid) with
                | none => resolveLoop playerName options ref rest'
                | some target =>
                  let ar := ref.add_player_alias target.id playerName
                  if ar.1 then
                    match ar.2.get_player target.name with
                    | some details =>
                      some (.ok details.id details.name, ar.2, rest')
                    | none => resolveLoop playerName options ar.2 rest'
                  else resolveLoop playerName options ar.2 rest'
        else if choice == "S" then some (.skipped, ref, rest)
        else resolveLoop playerName options ref rest
      | _ =>
        if choice == "C" then
          let ar := ref.add_player playerName none none none none
          match ar.1 with
          | some newId => some (.ok newId playerName, ar.2, rest)
          | none =>
            match ar.2.get_player playerName with
            | some p => some (.ok p.id p.name, ar.2, rest)
            | none => resolveLoop playerName options ar.2 rest
        else if choice == "AA" then
          if ref.players.isEmpty then resolveLoop playerName options ref rest
          else
            match rest with
            | [] => none
            | tidInp :: rest' =>
              match (pyStrip tidInp).toInt? with
              | none => resolveLoop playerName options ref rest'
              | some tid =>
                match ref.players.find? (fun p => (p.id : Int) == tid) with
                | none => resolveLoop playerName options ref rest'
                | some target =>
                  let ar := ref.add_player_alias target.id playerName
                  if ar.1 then
                    match ar.2.get_player target.name with
                    | some details =>
                      some (.ok details.id details.name, ar.2, rest')
                    | none => resolveLoop playerName options ar.2 rest'
                  else resolveLoop playerName options ar.2 rest'
        else if choice == "S" then some (.skipped, ref, rest)
        else resolveLoop playerName options ref rest

/-- Lines 159–209 of `player_processor.py`: after resolution, find or
create the row of the stats `players` table — by `reference_id` first,
then by the hash of the canonical name, else a fresh insert — updating a
stale hash, name or reference id in passing; the result triple is cached
under the RAW name before returning.  `hashFn` is the opaque SHA-256 of
`generate_player_hash`. -/
def statsDbResolve (hashFn : String → String) (st : ProcState)
    (playerName : String) (refId : Option Nat) (canonical : String) :
    ResolutionEntry × ProcState :=
  let byRef : Option StatsPlayerRow :=
    match refId with
    | none => none
    | some rid => st.db.players.find? (fun p => p.referenceId == some rid)
  match byRef with
  | some pl =>
    let expectedHash := hashFn canonical
    let db1 :=
      if pl.playerHash ≠ expectedHash then
        { st.db with players := st.db.players.map (fun q =>
            if q.id == pl.id then { q with playerHash := expectedHash } else q) }
      else st.db
    let db2 :=
      if pl.name ≠ canonical then
        { db1 with players := db1.players.map (fun q =>
            if q.id == pl.id then { q with name := canonical } else q) }
      else db1
    let entry : ResolutionEntry := ⟨some pl.id, canonical, some expectedHash⟩
    (entry, { st with db := db2, cache := cacheInsert st.cache playerName entry })
  | none =>
    let ph := hashFn canonical
    match st.db.players.find? (fun p => p.playerHash == ph) with
    | some pl =>
      let db1 :=
        if refId.isSome then
          { st.db with players := st.db.players.map (fun q =>
              if q.id == pl.id then { q with referenceId := refId } else q) }
        else st.db
      let db2 :=
        if pl.name ≠ canonical then
          { db1 with players := db1.players.map (fun q =>
              if q.id == pl.id then { q with name := canonical } else q) }
        else db1
      let entry : ResolutionEntry := ⟨some pl.id, canonical, some ph⟩
      (entry, { st with db := db2, cache := cacheInsert st.cache playerName entry })
    | none =>
      let newId := st.db.nextPlayerId
      let db1 :=
        { st.db with
            players := st.db.players ++ [⟨newId, canonical, refId, ph⟩],
            nextPlayerId := newId + 1 }
      let entry : ResolutionEntry := ⟨some newId, canonical, some ph⟩
      (entry, { st with db := db1, cache := cacheInsert st.cache playerName entry })

/-- `get_or_create_player`: return a cached resolution immediately;
otherwise resolve through the reference database (exact `get_player`
lookup, then the interactive loop over the fuzzy candidates produced by
the opaque `fuzzyPlayers`), cache a skip as `(None, name, None)`, and
otherwise run the stats-table logic of `statsDbResolve`.  Returns the
triple, the new state and the remaining inputs (`none` when the input
stream runs dry). -/
def get_or_create_player (hashFn : String → String)
    (fuzzyPlayers : List RefPlayer → String → List RefPlayer) (st : ProcState)
    (playerName : String) (inputs : List String) :
    Option (ResolutionEntry × ProcState × List String) :=
  match lookupCache st.cache playerName with
  | some e => some (e, st, inputs)
  | none =>
    match st.refDb with
    | none =>
      let r := statsDbResolve hashFn st playerName none playerName
      some (r.1, r.2, inputs)
    | some ref =>
      match ref.get_player playerName with
      | some p =>
        let r := statsDbResolve hashFn st playerName (some p.id) p.name
        some (r.1, r.2, inputs)
      | none =>
        let options := fuzzyPlayers ref.players playerName
        match resolveLoop playerName options ref inputs with
        | none => none
        | some (.skipped, ref', rest) =>
          let entry : ResolutionEntry := ⟨none, playerName, none⟩
          some (entry,
                { st with refDb := some ref',
                          cache := cacheInsert st.cache playerName entry },
                rest)
        | some (.ok rid cname, ref', rest) =>
          let r := statsDbResolve hashFn { st with refDb := some ref' }
                     playerName (some rid) cname
          some (r.1, r.2, rest)

/-- Raw player data of the extraction JSON: either a full record or a bare
name string; missing numeric fields default to 0 and a missing position to
`""` (the `player_data.get(…, default)` calls). -/
inductive RawPlayer where
  | full (player : String) (position : String)
      (score kills deaths assists aiKills capShipDamage : Int)
  | nameOnly (s : String)
deriving DecidableEq, Repr

/-- The name extracted from raw player data. -/
def RawPlayer.name : RawPlayer → String
  | .full n _ _ _ _ _ _ _ => n
  | .nameOnly s => s

/-- The stat fields extracted from raw player data
`(position, score, kills, deaths, assists, ai_kills, cap_ship_damage)`. -/
def RawPlayer.fields : RawPlayer → String × Int × Int × Int × Int × Int × Int
  | .full _ pos sc k d a ai cs => (pos, sc, k, d, a, ai, cs)
  | .nameOnly _ => ("", 0, 0, 0, 0, 0, 0)

/-- The per-match role determination of `process_player_stats`: the
primary role from the reference database (stripped, capitalized and
checked against the valid roles), possibly overridden by the user's
input for this match. -/
def determineRole (st : ProcState) (canonical : String) (userRole : String) :
    Option String :=
  let primaryRole : Option String :=
    match st.refDb with
    | none => none
    | some ref =>
      match ref.get_player canonical with
      | none => none
      | some rp =>
        match rp.primaryRole with
        | none => none
        | some raw =>
          if raw = "" then none
          else
            let cleaned := pyCapitalize (pyStrip raw)
            if ["Farmer", "Flex", "Support"].contains cleaned then some cleaned
            else none
  if userRole ≠ "" then
    let ur := pyCapitalize userRole
    if ["Farmer", "Flex", "Support"].contains ur then some ur else primaryRole
  else primaryRole

/-- The subbing suggestion of `process_player_stats` for team matches:
compare the reference player's primary team name with the current team's
name; the prompt fires whenever the primary team name is not the literal
`"Unknown"` default. -/
def subbingSuggestion (st : ProcState) (canonical : String) (teamId : Nat) :
    Nat × Bool :=
  match st.refDb with
  | none => (0, false)
  | some ref =>
    let primaryTeamName : Option String :=
      match ref.get_player canonical with
      | none => some "Unknown"
      | some rp => ref.teamNameOf rp
    let currentTeamName :=
      ((st.db.teams.find? (fun t => t.id == teamId)).map (·.name)).getD
        "Unknown Team"
    if primaryTeamName ≠ some "Unknown" then
      (if primaryTeamName ≠ some currentTeamName then 1 else 0, true)
    else (0, false)

/-- `process_player_stats`: resolve the player (dropping the stats of a
skipped resolution), read the per-match role override from the input
stream, null the team id for pickup/ranked matches, confirm the subbing
suggestion for team matches, and insert one `player_stats` row. -/
def process_player_stats (hashFn : String → String)
    (fuzzyPlayers : List RefPlayer → String → List RefPlayer) (st : ProcState)
    (matchId : Nat) (teamId : Nat) (faction : String) (playerData : RawPlayer)
    (matchType : Option String) (inputs : List String) :
    Option (ProcState × List String) :=
  let playerName := playerData.name
  let f := playerData.fields
  match get_or_create_player hashFn fuzzyPlayers st playerName inputs with
  | none => none
  | some (entry, st1, inputs1) =>
    match entry.playerId with
    | none => some (st1, inputs1)
    | some pid =>
      let canonical := entry.canonicalName
      let phash := entry.playerHash.getD ""
      match inputs1 with
      | [] => none
      | roleInp :: inputs2 =>
        let playerRole := determineRole st1 canonical (pyStrip roleInp)
        if matchType = some "pickup" ∨ matchType = some "ranked" then
          let row : PlayerStatRow :=
            ⟨matchId, pid, canonical, phash, none, faction, f.1, playerRole,
             f.2.1, f.2.2.1, f.2.2.2.1, f.2.2.2.2.1, f.2.2.2.2.2.1,
             f.2.2.2.2.2.2, 0⟩
          some ({ st1 with db := { st1.db with
                    playerStats := st1.db.playerStats ++ [row] } }, inputs2)
        else
          let sg := subbingSuggestion st1 canonical teamId
          if sg.2 ∧ matchType = some "team" then
            match inputs2 with
            | [] => none
            | subInp :: inputs3 =>
              let resp := lowerStr (pyStrip subInp)
              let finalSub := if resp = "n" then 1 - sg.1 else sg.1
              let row : PlayerStatRow :=
                ⟨matchId, pid, canonical, phash, some teamId, faction, f.1,
                 playerRole, f.2.1, f.2.2.1, f.2.2.2.1, f.2.2.2.2.1,
                 f.2.2.2.2.2.1, f.2.2.2.2.2.2, finalSub⟩
              some ({ st1 with db := { st1.db with
                        playerStats := st1.db.playerStats ++ [row] } }, inputs3)
          else
            let row : PlayerStatRow :=
              ⟨matchId, pid, canonical, phash, some teamId, faction, f.1,
               playerRole, f.2.1, f.2.2.1, f.2.2.2.1, f.2.2.2.2.1,
               f.2.2.2.2.2.1, f.2.2.2.2.2.2, sg.1⟩
            some ({ st1 with db := { st1.db with
                      playerStats := st1.db.playerStats ++ [row] } }, inputs2)

/-! ## Match processor (`modules/match_processor.py`, `database_utils.py`) -/

/-- Outcome normalization of `process_match_data` (lines 32–39): an
upper-cased `match_result` containing `IMPERIAL`/`EMPIRE` is an imperial
win, else one containing `REBEL`/`NEW REPUBLIC`/`REPUBLIC` a rebel win,
anything else `UNKNOWN`. -/
def normalizeWinner (matchResult : String) : String :=
  let u := upperStr matchResult
  if pyIn "IMPERIAL" u || pyIn "EMPIRE" u then "IMPERIAL"
  else if pyIn "REBEL" u || pyIn "NEW REPUBLIC" u || pyIn "REPUBLIC" u then "REBEL"
  else "UNKNOWN"

/-- `get_or_create_season`. -/
def get_or_create_season (db : Db) (seasonName : String) : Nat × Db :=
  match db.seasons.find? (fun s => s.name == seasonName) with
  | some s => (s.id, db)
  | none =>
    (db.nextSeasonId,
     { db with seasons := db.seasons ++ [⟨db.nextSeasonId, seasonName⟩],
               nextSeasonId := db.nextSeasonId + 1 })

/-- `get_or_create_team`: canonicalize through the reference database when
available (fuzzy `get_team`), dedupe by `reference_id`, then by name
(back-filling a missing `reference_id`), else insert a new team row. -/
def get_or_create_team (teamFuzzy : List RefTeam → String → Option RefTeam)
    (st : ProcState) (teamName : String) : Nat × ProcState :=
  let refMatch : Option RefTeam :=
    match st.refDb with
    | none => none
    | some ref => ref.get_team teamName true teamFuzzy
  let refId : Option Nat := refMatch.map (·.id)
  let canonical : String := (refMatch.map (·.name)).getD teamName
  let byRef : Option TeamRow :=
    match refMatch with
    | none => none
    | some rt => st.db.teams.find? (fun t => t.referenceId == some rt.id)
  match byRef with
  | some t => (t.id, st)
  | none =>
    match st.db.teams.find? (fun t => t.name == canonical) with
    | some t =>
      if refId.any (· ≠ 0) then
        (t.id,
         { st with db := { st.db with teams := st.db.teams.map (fun q =>
             if q.id == t.id then { q with referenceId := refId } else q) } })
      else (t.id, st)
    | none =>
      (st.db.nextTeamId,
       { st with db := { st.db with
           teams := st.db.teams ++ [⟨st.db.nextTeamId, canonical, refId, 0, 0⟩],
           nextTeamId := st.db.nextTeamId + 1 } })

/-- A raw match record of the extraction JSON (team rosters already
extracted from the `teams.{imperial|rebel}` variants). -/
structure RawMatch where
  matchResult : Option String
  matchDate : Option String
  matchType : Option String
  imperialPlayers : List RawPlayer
  rebelPlayers : List RawPlayer
deriving DecidableEq, Repr

/-- The per-roster loop of `process_match_data`: run
`process_player_stats` on each raw player record in order. -/
def processSide (hashFn : String → String)
    (fuzzyPlayers : List RefPlayer → String → List RefPlayer)
    (matchId teamId : Nat) (faction : String) (matchType : Option String) :
    ProcState → List String → List RawPlayer → Option (ProcState × List String)
  | st, inputs, [] => some (st, inputs)
  | st, inputs, pd :: rest =>
    match process_player_stats hashFn fuzzyPlayers st matchId teamId faction pd
        matchType inputs with
    | none => none
    | some (st', inputs') =>
      processSide hashFn fuzzyPlayers matchId teamId faction matchType st'
        inputs' rest

/-- The team-name selection of `process_match_data` for a `team`-type
match: an input names the team; an empty input falls back to the
suggestion derived from the first roster player's reference team (with the
source's `strip(" (Suggested: ").strip(")")` dance), else to the given
default name. -/
def chooseTeamName (st : ProcState) (roster : List RawPlayer)
    (defaultName : String) (inputName : String) : String :=
  let suggestion : String :=
    match st.refDb, roster with
    | some ref, firstPlayer :: _ =>
      match ref.get_player firstPlayer.name with
      | some rp =>
        match ref.teamNameOf rp with
        | some tn => if tn ≠ "" then " (Suggested: " ++ tn ++ ")" else ""
        | none => ""
      | none => ""
    | _, _ => ""
  let typed := pyStrip inputName
  let name1 :=
    if typed = "" ∧ suggestion ≠ "" then
      pyStripSet (")".data) (pyStripSet (" (Suggested: ".data) suggestion)
    else typed
  if name1 = "" then defaultName else name1

/-- `process_match_data`: normalize the outcome, fix the date (JSON date,
else the filename-derived date `dateOfFilename`, else the user's input,
else the `CURRENT_TIMESTAMP` `now`), determine the match type (prompting
when not supplied), name/create the two teams, update their win/loss
counters, insert the match row — whatever the outcome text was — and
process both rosters' player stats. -/
def process_match_data (hashFn : String → String)
    (fuzzyPlayers : List RefPlayer → String → List RefPlayer)
    (teamFuzzy : List RefTeam → String → Option RefTeam)
    (dateOfFilename : String → Option String) (now : String) (st : ProcState)
    (seasonName filename : String) (matchData : RawMatch)
    (matchTypeArg : Option String) (inputs : List String) :
    Option (ProcState × List String) :=
  let sr := get_or_create_season st.db seasonName
  let seasonId := sr.1
  let st0 : ProcState := { st with db := sr.2 }
  let winner := normalizeWinner (matchData.matchResult.getD "UNKNOWN")
  let date0 : Option String :=
    match matchData.matchDate with
    | some d => some d
    | none => dateOfFilename filename
  match inputs with
  | [] => none
  | dateInp :: inputs1 =>
    let userDate := pyStrip dateInp
    let matchDate : Option String := if userDate ≠ "" then some userDate else date0
    let mtCont : Option (String × List String) :=
      match matchTypeArg with
      | some mt => some (mt, inputs1)
      | none =>
        match inputs1 with
        | [] => none
        | mtInp :: inputs2 =>
          let mti := lowerStr (pyStrip mtInp)
          some (if mti = "pickup" then "pickup"
                else if mti = "ranked" then "ranked" else "team", inputs2)
    match mtCont with
    | none => none
    | some (matchType, inputs2) =>
      let namesCont : Option (String × String × List String) :=
        if matchType = "team" then
          match inputs2 with
          | [] => none
          | impInp :: rest1 =>
            let impName := chooseTeamName st0 matchData.imperialPlayers
              "Unknown IMPERIAL Team" impInp
            match rest1 with
            | [] => none
            | rebInp :: rest2 =>
              some (impName,
                    chooseTeamName st0 matchData.rebelPlayers
                      "Unknown REBEL Team" rebInp, rest2)
        else if matchType = "pickup" then
          some ("Imp_pickup_team", "NR_pickup_team", inputs2)
        else some ("Imperial_ranked_team", "NR_ranked_team", inputs2)
      match namesCont with
      | none => none
      | some (impName, rebName, inputs3) =>
        let t1 := get_or_create_team teamFuzzy st0 impName
        let t2 := get_or_create_team teamFuzzy t1.2 rebName
        let impTeamId := t1.1
        let rebTeamId := t2.1
        let st1 := t2.2
        let db2 :=
          if winner = "IMPERIAL" then
            { st1.db with teams := st1.db.teams.map (fun t =>
                let t' := if t.id == impTeamId then { t with wins := t.wins + 1 } else t
                if t'.id == rebTeamId then { t' with losses := t'.losses + 1 } else t') }
          else if winner = "REBEL" then
            { st1.db with teams := st1.db.teams.map (fun t =>
                let t' := if t.id == rebTeamId then { t with wins := t.wins + 1 } else t
                if t'.id == impTeamId then { t' with losses := t'.losses + 1 } else t') }
          else st1.db
        let matchId := db2.nextMatchId
        let row : MatchRow :=
          ⟨matchId, seasonId, matchDate.getD now, impTeamId, rebTeamId, winner,
           filename, matchType⟩
        let db3 := { db2 with matchTable := db2.matchTable ++ [row],
                              nextMatchId := matchId + 1 }
        let st2 : ProcState := { st1 with db := db3 }
        match processSide hashFn fuzzyPlayers matchId impTeamId "IMPERIAL"
            (some matchType) st2 inputs3 matchData.imperialPlayers with
        | none => none
        | some (st3, inputs4) =>
          processSide hashFn fuzzyPlayers matchId rebTeamId "REBEL"
            (some matchType) st3 inputs4 matchData.rebelPlayers

/-! ## Fixtures and spec-side predicates -/

/-- Spec-side alias matching for `get_player`: the raw name is a whole
token of the comma-joined alias list, compared case-insensitively when the
list actually contains a comma; a single-alias (comma-free) list is only
matched by case-sensitive equality. -/
def aliasSpecMatch (rawName : String) (p : RefPlayer) : Prop :=
  ∃ a, p.aliasText = some a ∧
    ((',' ∈ a.data ∧ ∃ t ∈ pySplitComma a, upperStr t = upperStr rawName) ∨
     (',' ∉ a.data ∧ a = rawName))

/-- An empty stats database (fixture for concrete instantiations). -/
def emptyDb : Db := ⟨[], [], [], [], [], 1, 1, 1, 1⟩

/-- A decisive team match between teams 1 and 2 (fixture). -/
def sampleMatch : MatchRow :=
  ⟨1, 1, "2024-01-01 12:00:00", 1, 2, "IMPERIAL", "match1.png", "team"⟩

/-- A single imperial stat row for player 1 (fixture). -/
def sampleStat : PlayerStatRow :=
  ⟨1, 1, "P1", "h1", none, "IMPERIAL", "", none, 0, 0, 0, 0, 0, 0, 0⟩

/-- Equal-timestamp matches (fixture for the ordering claims). -/
def cm1 : MatchRow :=
  ⟨1, 1, "2024-01-01 12:00:00", 1, 2, "IMPERIAL", "a.png", "team"⟩

/-- Second match sharing `cm1`'s timestamp (fixture). -/
def cm2 : MatchRow :=
  ⟨2, 1, "2024-01-01 12:00:00", 2, 1, "REBEL", "b.png", "team"⟩

/-- A database holding the two equal-timestamp matches (fixture). -/
def combinedDb : Db :=
  ⟨[⟨1, "S1"⟩], [⟨1, "T1", none, 0, 0⟩, ⟨2, "T2", none, 0, 0⟩], [cm1, cm2],
   [], [], 2, 3, 3, 1⟩

/-- A decisive pickup match (fixture for the role-pool claims). -/
def roleMatch : MatchRow :=
  ⟨1, 1, "2024-01-01 12:00:00", 1, 2, "IMPERIAL", "a.png", "pickup"⟩

/-- A database with one Flex player against one Support player (fixture). -/
def roleDb : Db :=
  ⟨[⟨1, "S1"⟩], [], [roleMatch],
   [⟨1, "P1", none, "h1"⟩, ⟨2, "P2", none, "h2"⟩],
   [⟨1, 1, "P1", "h1", none, "IMPERIAL", "", some "Flex", 0, 0, 0, 0, 0, 0, 0⟩,
    ⟨1, 2, "P2", "h2", none, "REBEL", "", some "Support", 0, 0, 0, 0, 0, 0, 0⟩],
   2, 1, 2, 3⟩

/-- A decisive team match whose rosters are completely absent (fixture). -/
def rosterlessMatch : MatchRow :=
  ⟨1, 1, "2024-03-01 12:00:00", 1, 2, "IMPERIAL", "c.png", "team"⟩

/-- A database holding `rosterlessMatch` and no player stats (fixture). -/
def rosterlessDb : Db :=
  ⟨[⟨1, "S1"⟩], [⟨1, "T1", none, 0, 0⟩, ⟨2, "T2", none, 0, 0⟩],
   [rosterlessMatch], [], [], 2, 3, 2, 1⟩

/-- A database holding one team and no matches at all. -/
def idleTeamDb : Db := ⟨[], [⟨7, "Idle", none, 0, 0⟩], [], [], [], 1, 8, 1, 1⟩

/-- The match row inserted by the concrete unknown-outcome run (fixture). -/
def c4Match : MatchRow :=
  ⟨1, 1, "2024-01-01 00:00:00", 1, 2, "UNKNOWN", "f.png", "team"⟩

/-- The database produced by that run (fixture). -/
def c4Db : Db :=
  ⟨[⟨1, "S"⟩], [⟨1, "TeamA", none, 0, 0⟩, ⟨2, "TeamB", none, 0, 0⟩],
   [c4Match], [], [], 2, 3, 2, 1⟩

/-- A reference database whose only player is `Alice` with single alias
`Bob` (fixture). -/
def c7Ref : RefDb :=
  ⟨[], [⟨1, "Alice", none, none, some "Bob", none⟩], 1, 2⟩

/-- A reference database whose only player has the alias list
`Player1,Xyz` (fixture for the wildcard leak of `get_player`). -/
def c7RefW : RefDb :=
  ⟨[], [⟨1, "P1", none, none, some "Player1,Xyz", none⟩], 1, 2⟩

/-- A reference database whose only player has the single alias `old`
(fixture). -/
def c9Ref : RefDb :=
  ⟨[], [⟨1, "P", none, none, some "old", none⟩], 1, 2⟩

/-- The state after a skipped resolution of the raw name `Zed` (fixture). -/
def c10St1 : ProcState :=
  ⟨emptyDb, some c7Ref, [("Zed", ⟨none, "Zed", none⟩)]⟩

/-! ### splitComma lemmas -/

theorem splitComma_ne_nil (l : List Char) : splitComma l ≠ [] := by
  induction l with
  | nil => simp [splitComma]
  | cons c rest ih =>
    simp only [splitComma]
    split
    · simp
    · cases h : splitComma rest with
      | nil => simp
      | cons t ts => simp

theorem splitComma_of_no_comma (x : List Char) (hx : ',' ∉ x) :
    splitComma x = [x] := by
  induction x with
  | nil => simp [splitComma]
  | cons c rest ih =>
    have hc : c ≠ ',' := fun h => hx (h ▸ List.mem_cons_self c rest)
    have hrest : ',' ∉ rest := fun h => hx (List.mem_cons_of_mem c h)
    simp only [splitComma, if_neg hc, ih hrest]

theorem splitComma_append_comma (x y : List Char) (hx : ',' ∉ x) :
    splitComma (x ++ ',' :: y) = x :: splitComma y := by
  induction x with
  | nil => simp [splitComma]
  | cons c rest ih =>
    have hc : c ≠ ',' := fun h => hx (h ▸ List.mem_cons_self c rest)
    have hrest : ',' ∉ rest := fun h => hx (List.mem_cons_of_mem c h)
    simp only [List.cons_append, splitComma, if_neg hc]
    rw [show (rest.append (',' :: y)) = rest ++ ',' :: y from rfl, ih hrest]

theorem splitComma_comma_left (u y : List Char) :
    ∃ pre, pre ≠ [] ∧ splitComma (u ++ ',' :: y) = pre ++ splitComma y := by
  induction u with
  | nil => exact ⟨[[]], by simp, by simp [splitComma]⟩
  | cons c rest ih =>
    obtain ⟨pre, hpre, heq⟩ := ih
    by_cases hc : c = ','
    · subst hc
      exact ⟨[] :: pre, by simp, by simp [splitComma, heq]⟩
    · cases pre with
      | nil => exact absurd rfl hpre
      | cons t ts =>
        refine ⟨(c :: t) :: ts, by simp, ?_⟩
        simp only [List.cons_append, splitComma, if_neg hc]
        rw [show (rest.append (',' :: y)) = rest ++ ',' :: y from rfl, heq]
        rfl

theorem mem_splitComma_no_comma (l t : List Char) (ht : t ∈ splitComma l) :
    ',' ∉ t := by
  induction l generalizing t with
  | nil => simp [splitComma] at ht; subst ht; simp
  | cons c rest ih =>
    simp only [splitComma] at ht
    split at ht
    · rcases List.mem_cons.1 ht with h | h
      · subst h; simp
      · exact ih t h
    · rename_i hc
      cases h : splitComma rest with
      | nil => exact absurd h (splitComma_ne_nil rest)
      | cons t0 ts =>
        rw [h] at ht
        rcases List.mem_cons.1 ht with h1 | h1
        · subst h1
          intro hmem
          rcases List.mem_cons.1 hmem with h2 | h2
          · exact hc h2.symm
          · exact ih t0 (h ▸ List.mem_cons_self t0 ts) h2
        · exact ih t (h ▸ List.mem_cons_of_mem t0 h1)

theorem splitComma_first (A t : List Char) (ts : List (List Char))
    (h : splitComma A = t :: ts) :
    (ts = [] → A = t) ∧ (ts ≠ [] → ∃ y, A = t ++ ',' :: y ∧ splitComma y = ts) := by
  induction A generalizing t ts with
  | nil =>
    simp only [splitComma] at h
    injection h with h1 h2
    subst h1
    exact ⟨fun _ => rfl, fun hne => absurd h2.symm hne⟩
  | cons c rest ih =>
    simp only [splitComma] at h
    split at h
    · rename_i hc
      subst hc
      injection h with h1 h2
      subst h1
      refine ⟨fun hts0 => absurd (hts0 ▸ h2) (splitComma_ne_nil rest), fun _ => ?_⟩
      exact ⟨rest, by simp, h2⟩
    · rename_i hc
      cases hsr : splitComma rest with
      | nil => exact absurd hsr (splitComma_ne_nil rest)
      | cons u us =>
        rw [hsr] at h
        injection h with h1 h2
        subst h1
        subst h2
        obtain ⟨ih1, ih2⟩ := ih u us hsr
        constructor
        · intro h0
          rw [ih1 h0]
        · intro hne
          obtain ⟨y, hy, hsy⟩ := ih2 hne
          exact ⟨y, by simp [hy], hsy⟩

theorem mem_splitComma_decomp (n : Nat) :
    ∀ (A R : List Char), A.length ≤ n → ',' ∉ R → R ∈ splitComma A →
      A = R ∨ (∃ y, A = R ++ ',' :: y) ∨ (∃ x, A = x ++ ',' :: R) ∨
      (∃ x y, A = x ++ ',' :: R ++ ',' :: y) := by
  induction n with
  | zero =>
    intro A R hlen hR hmem
    have hA : A = [] := List.eq_nil_of_length_eq_zero (Nat.le_zero.1 hlen)
    subst hA
    simp only [splitComma, List.mem_singleton] at hmem
    exact Or.inl hmem.symm
  | succ n ih =>
    intro A R hlen hR hmem
    cases hsp : splitComma A with
    | nil => exact absurd hsp (splitComma_ne_nil A)
    | cons t ts =>
      rw [hsp] at hmem
      obtain ⟨h1, h2⟩ := splitComma_first A t ts hsp
      rcases List.mem_cons.1 hmem with hRt | hRts
      · subst hRt
        cases hts : ts with
        | nil => exact Or.inl (h1 hts)
        | cons a as =>
          obtain ⟨y, hy, _⟩ := h2 (by simp [hts])
          exact Or.inr (Or.inl ⟨y, hy⟩)
      · have htsne : ts ≠ [] := by
          intro h0
          rw [h0] at hRts
          exact List.not_mem_nil R hRts
        obtain ⟨y, hy, hsy⟩ := h2 htsne
        have hylen : y.length ≤ n := by
          have hA : A.length = t.length + 1 + y.length := by
            rw [hy]; simp [List.length_append, List.length_cons]; omega
          omega
        have hmem' : R ∈ splitComma y := by rw [hsy]; exact hRts
        rcases ih y R hylen hR hmem' with h | ⟨z, hz⟩ | ⟨x, hx⟩ | ⟨x, z, hxz⟩
        · exact Or.inr (Or.inr (Or.inl ⟨t, by rw [hy, h]⟩))
        · exact Or.inr (Or.inr (Or.inr ⟨t, z, by rw [hy, hz]; simp⟩))
        · exact Or.inr (Or.inr (Or.inl ⟨t ++ ',' :: x, by rw [hy, hx]; simp⟩))
        · exact Or.inr (Or.inr (Or.inr ⟨t ++ ',' :: x, z, by rw [hy, hxz]; simp⟩))

/-- Whole-token membership in a comma-joined list, characterized by the
four delimiter forms the `LIKE` patterns of `get_player` test. -/
theorem mem_splitComma_iff (A R : List Char) (hR : ',' ∉ R) :
    R ∈ splitComma A ↔
      A = R ∨ (∃ y, A = R ++ ',' :: y) ∨ (∃ x, A = x ++ ',' :: R) ∨
      (∃ x y, A = x ++ ',' :: R ++ ',' :: y) := by
  constructor
  · exact fun h => mem_splitComma_decomp A.length A R le_rfl hR h
  · rintro (h | ⟨y, hy⟩ | ⟨x, hx⟩ | ⟨x, y, hxy⟩)
    · rw [h, splitComma_of_no_comma R hR]; simp
    · rw [hy, splitComma_append_comma R y hR]; simp
    · rw [hx]
      obtain ⟨pre, _, heq⟩ := splitComma_comma_left x R
      rw [heq, splitComma_of_no_comma R hR]
      simp
    · rw [hxy]
      have heq2 : x ++ ',' :: R ++ ',' :: y = x ++ ',' :: (R ++ ',' :: y) := by simp
      rw [heq2]
      obtain ⟨pre, _, heq⟩ := splitComma_comma_left x (R ++ ',' :: y)
      rw [heq, splitComma_append_comma R y hR]
      simp

/-! ### `LIKE`-pattern characterizations -/

theorem leadMatch_iff (pat s : List Char) : leadMatch pat s = true ↔ pat <+: s := by
  unfold leadMatch
  rw [beq_iff_eq, List.prefix_iff_eq_take]
  exact comm

theorem trailMatch_iff (pat s : List Char) : trailMatch pat s = true ↔ pat <:+ s := by
  unfold trailMatch
  rw [beq_iff_eq, List.suffix_iff_eq_drop]
  exact comm

theorem innerMatch_iff (pat s : List Char) : innerMatch pat s = true ↔ pat <:+: s := by
  induction s with
  | nil =>
    simp only [innerMatch, beq_iff_eq]
    constructor
    · intro h; rw [h]
    · intro h; exact List.eq_nil_of_infix_nil h
  | cons c rest ih =>
    simp only [innerMatch, Bool.or_eq_true, leadMatch_iff, ih]
    rw [List.infix_cons_iff]

theorem toUpper_eq_comma_iff (c : Char) : Char.toUpper c = ',' ↔ c = ',' := by
  constructor
  · intro h
    unfold Char.toUpper at h
    simp only at h
    by_cases hc : c.toNat ≥ 97 ∧ c.toNat ≤ 122
    · rw [if_pos hc] at h
      exfalso
      have hv : (c.toNat - 32).isValidChar := Or.inl (by omega)
      have hx : (Char.ofNat (c.toNat - 32)).toNat = c.toNat - 32 := by
        rw [Char.ofNat, dif_pos hv]
        rfl
      rw [h] at hx
      have h44 : (',' : Char).toNat = 44 := by decide
      omega
    · rw [if_neg hc] at h
      exact h
  · intro h
    subst h
    decide

theorem comma_mem_map_toUpper (l : List Char) :
    ',' ∈ l.map Char.toUpper ↔ ',' ∈ l := by
  rw [List.mem_map]
  constructor
  · rintro ⟨c, hc, hup⟩
    rw [(toUpper_eq_comma_iff c).1 hup] at hc
    exact hc
  · intro h
    exact ⟨',', h, by decide⟩

theorem splitComma_map_toUpper (l : List Char) :
    splitComma (l.map Char.toUpper) = (splitComma l).map (·.map Char.toUpper) := by
  induction l with
  | nil => simp [splitComma]
  | cons c rest ih =>
    by_cases hc : c = ','
    · subst hc
      simp only [List.map_cons, splitComma]
      rw [show Char.toUpper ',' = ',' from by decide]
      simp [ih]
    · have hc' : Char.toUpper c ≠ ',' := fun h => hc ((toUpper_eq_comma_iff c).1 h)
      simp only [List.map_cons, splitComma, if_neg hc, if_neg hc']
      rw [ih]
      cases h : splitComma rest with
      | nil => exact absurd h (splitComma_ne_nil rest)
      | cons t ts => simp

theorem upperData_append (s t : String) :
    upperData (s ++ t) = upperData s ++ upperData t := by
  simp [upperData, String.data_append]

theorem upperStr_data (s : String) : (upperStr s).data = upperData s := rfl

theorem token_mem_iff (a rawName : String) :
    upperData rawName ∈ splitComma (upperData a) ↔
      ∃ t ∈ pySplitComma a, upperStr t = upperStr rawName := by
  rw [show upperData a = a.data.map Char.toUpper from rfl, splitComma_map_toUpper]
  simp only [List.mem_map, pySplitComma]
  constructor
  · rintro ⟨t, ht, hup⟩
    refine ⟨⟨t⟩, ⟨t, ht, rfl⟩, ?_⟩
    apply String.ext
    rw [upperStr_data, upperStr_data]
    exact hup
  · rintro ⟨t', ⟨t, ht, rfl⟩, hup⟩
    refine ⟨t, ht, ?_⟩
    have := congrArg String.data hup
    rw [upperStr_data, upperStr_data] at this
    exact this

theorem delims_iff (A R : List Char) (hR : ',' ∉ R) :
    ((',' :: R ++ [',']) <:+: A ∨ (R ++ [',']) <+: A ∨ (',' :: R) <:+ A) ↔
      (',' ∈ A ∧ R ∈ splitComma A) := by
  rw [mem_splitComma_iff A R hR]
  constructor
  · rintro (hin | hlead | htrail)
    · obtain ⟨s, t, hst⟩ := hin
      subst hst
      refine ⟨by simp, Or.inr (Or.inr (Or.inr ⟨s, t, by simp⟩))⟩
    · obtain ⟨t, ht⟩ := hlead
      subst ht
      refine ⟨by simp, Or.inr (Or.inl ⟨t, by simp⟩)⟩
    · obtain ⟨s, hs⟩ := htrail
      subst hs
      refine ⟨by simp, Or.inr (Or.inr (Or.inl ⟨s, by simp⟩))⟩
  · rintro ⟨hc, hA | ⟨y, hy⟩ | ⟨x, hx⟩ | ⟨x, y, hxy⟩⟩
    · exact absurd (hA ▸ hc) hR
    · refine Or.inr (Or.inl ?_)
      exact ⟨y, by rw [hy]; simp⟩
    · refine Or.inr (Or.inr ?_)
      exact ⟨x, by rw [hx]⟩
    · refine Or.inl ?_
      exact ⟨x, y, by rw [hxy]; simp⟩

/-! ### SQLite `LIKE` semantics, reduced for wildcard-free needles -/

theorem likeFuel_nil (n : Nat) (s : List Char) :
    likeFuel n [] s = s.isEmpty := by
  cases n <;> rfl

theorem likeFuel_lit (w : List Char) (hpc : '%' ∉ w) (hus : '_' ∉ w) :
    ∀ (n : Nat) (s : List Char), w.length + s.length ≤ n →
      (likeFuel n w s = true ↔ w.map Char.toUpper = s.map Char.toUpper) := by
  induction w with
  | nil =>
    intro n s _
    rw [likeFuel_nil]
    cases s <;> simp
  | cons p ps ih =>
    intro n s hn
    have hp : p ≠ '%' := fun h => hpc (h ▸ List.mem_cons_self p ps)
    have hu : p ≠ '_' := fun h => hus (h ▸ List.mem_cons_self p ps)
    have hpc' : '%' ∉ ps := fun h => hpc (List.mem_cons_of_mem p h)
    have hus' : '_' ∉ ps := fun h => hus (List.mem_cons_of_mem p h)
    cases n with
    | zero =>
      simp only [List.length_cons] at hn
      exact absurd hn (by omega)
    | succ m =>
      cases s with
      | nil =>
        simp only [likeFuel, if_neg hp]
        simp
      | cons c s' =>
        simp only [likeFuel, if_neg hp, if_neg hu]
        rw [Bool.and_eq_true, beq_iff_eq,
          ih hpc' hus' m s' (by simp only [List.length_cons] at hn; omega)]
        simp

theorem likeFuel_pct (s : List Char) : ∀ n, s.length + 1 ≤ n →
    likeFuel n ['%'] s = true := by
  induction s with
  | nil =>
    intro n hn
    cases n with
    | zero => exact absurd hn (by omega)
    | succ m => simp [likeFuel]
  | cons c s' ih =>
    intro n hn
    cases n with
    | zero => exact absurd hn (by omega)
    | succ m =>
      have hstep : likeFuel (m + 1) ['%'] (c :: s') =
          (likeFuel m [] (c :: s') ||
            likeFuel m ['%'] s') := by
        simp [likeFuel]
      rw [hstep, ih m (by simp only [List.length_cons] at hn; omega)]
      simp

theorem likeFuel_lit_pct (w : List Char) (hpc : '%' ∉ w) (hus : '_' ∉ w) :
    ∀ (n : Nat) (s : List Char), w.length + s.length + 1 ≤ n →
      (likeFuel n (w ++ ['%']) s = true ↔
        w.map Char.toUpper <+: s.map Char.toUpper) := by
  induction w with
  | nil =>
    intro n s hn
    simp only [List.nil_append, List.map_nil]
    constructor
    · intro _
      exact List.nil_prefix
    · intro _
      exact likeFuel_pct s n (by simpa using hn)
  | cons p ps ih =>
    intro n s hn
    have hp : p ≠ '%' := fun h => hpc (h ▸ List.mem_cons_self p ps)
    have hu : p ≠ '_' := fun h => hus (h ▸ List.mem_cons_self p ps)
    have hpc' : '%' ∉ ps := fun h => hpc (List.mem_cons_of_mem p h)
    have hus' : '_' ∉ ps := fun h => hus (List.mem_cons_of_mem p h)
    cases n with
    | zero =>
      simp only [List.length_cons] at hn
      exact absurd hn (by omega)
    | succ m =>
      cases s with
      | nil =>
        simp only [List.cons_append, likeFuel, if_neg hp]
        simp
      | cons c s' =>
        simp only [List.cons_append, likeFuel, if_neg hp, if_neg hu,
          List.append_eq]
        rw [Bool.and_eq_true, beq_iff_eq,
          ih hpc' hus' m s' (by simp only [List.length_cons] at hn; omega)]
        simp [List.cons_prefix_cons]

theorem likeFuel_pct_lit (w : List Char) (hpc : '%' ∉ w) (hus : '_' ∉ w)
    (s : List Char) :
    ∀ (n : Nat), w.length + s.length + 1 ≤ n →
      (likeFuel n ('%' :: w) s = true ↔
        w.map Char.toUpper <:+ s.map Char.toUpper) := by
  induction s with
  | nil =>
    intro n hn
    cases n with
    | zero => exact absurd hn (by omega)
    | succ m =>
      have hstep : likeFuel (m + 1) ('%' :: w) [] = likeFuel m w [] := by
        simp [likeFuel]
      rw [hstep, likeFuel_lit w hpc hus m [] (by simpa using hn)]
      simp [List.suffix_nil, eq_comm]
  | cons c s' ih =>
    intro n hn
    cases n with
    | zero => exact absurd hn (by omega)
    | succ m =>
      have hstep : likeFuel (m + 1) ('%' :: w) (c :: s') =
          (likeFuel m w (c :: s') || likeFuel m ('%' :: w) s') := by
        simp [likeFuel]
      rw [hstep, Bool.or_eq_true,
        likeFuel_lit w hpc hus m (c :: s')
          (by simp only [List.length_cons] at hn ⊢; omega),
        ih m (by simp only [List.length_cons] at hn; omega)]
      rw [List.map_cons, List.suffix_cons_iff]

theorem likeFuel_pct_lit_pct (w : List Char) (hpc : '%' ∉ w) (hus : '_' ∉ w)
    (s : List Char) :
    ∀ (n : Nat), w.length + s.length + 2 ≤ n →
      (likeFuel n ('%' :: (w ++ ['%'])) s = true ↔
        w.map Char.toUpper <:+: s.map Char.toUpper) := by
  induction s with
  | nil =>
    intro n hn
    cases n with
    | zero => exact absurd hn (by omega)
    | succ m =>
      have hstep : likeFuel (m + 1) ('%' :: (w ++ ['%'])) [] =
          likeFuel m (w ++ ['%']) [] := by
        simp [likeFuel]
      rw [hstep, likeFuel_lit_pct w hpc hus m [] (by simpa using hn)]
      simp [eq_comm]
  | cons c s' ih =>
    intro n hn
    cases n with
    | zero => exact absurd hn (by omega)
    | succ m =>
      have hstep : likeFuel (m + 1) ('%' :: (w ++ ['%'])) (c :: s') =
          (likeFuel m (w ++ ['%']) (c :: s') ||
            likeFuel m ('%' :: (w ++ ['%'])) s') := by
        simp [likeFuel]
      rw [hstep, Bool.or_eq_true,
        likeFuel_lit_pct w hpc hus m (c :: s')
          (by simp only [List.length_cons] at hn ⊢; omega),
        ih m (by simp only [List.length_cons] at hn; omega)]
      rw [List.map_cons, List.infix_cons_iff]

theorem sqlLike_token_inner (rawName a : String) (hpc : '%' ∉ rawName.data)
    (hus : '_' ∉ rawName.data) :
    sqlLike ("%," ++ rawName ++ ",%") a = true ↔
      (',' :: upperData rawName ++ [',']) <:+: upperData a := by
  unfold sqlLike
  have hdata : ("%," ++ rawName ++ ",%").data =
      '%' :: ((',' :: rawName.data ++ [',']) ++ ['%']) := by
    rw [String.data_append, String.data_append]
    show ['%', ','] ++ rawName.data ++ [',', '%'] = _
    simp
  have hw1 : '%' ∉ ',' :: rawName.data ++ [','] := by
    intro h
    rcases List.mem_cons.1 h with h' | h'
    · exact absurd h' (by decide)
    · rcases List.mem_append.1 h' with h'' | h''
      · exact hpc h''
      · exact absurd (List.mem_singleton.1 h'') (by decide)
  have hw2 : '_' ∉ ',' :: rawName.data ++ [','] := by
    intro h
    rcases List.mem_cons.1 h with h' | h'
    · exact absurd h' (by decide)
    · rcases List.mem_append.1 h' with h'' | h''
      · exact hus h''
      · exact absurd (List.mem_singleton.1 h'') (by decide)
  have hc : Char.toUpper ',' = ',' := by decide
  have hmap : (',' :: rawName.data ++ [',']).map Char.toUpper =
      ',' :: upperData rawName ++ [','] := by
    simp [upperData, hc]
  rw [hdata,
    likeFuel_pct_lit_pct (',' :: rawName.data ++ [',']) hw1 hw2 a.data _
      (by simp only [List.length_cons, List.length_append,
            List.length_singleton]
          omega),
    hmap]
  rfl

theorem sqlLike_token_lead (rawName a : String) (hpc : '%' ∉ rawName.data)
    (hus : '_' ∉ rawName.data) :
    sqlLike (rawName ++ ",%") a = true ↔
      (upperData rawName ++ [',']) <+: upperData a := by
  unfold sqlLike
  have hdata : (rawName ++ ",%").data = (rawName.data ++ [',']) ++ ['%'] := by
    rw [String.data_append]
    show rawName.data ++ [',', '%'] = _
    simp
  have hw1 : '%' ∉ rawName.data ++ [','] := by
    intro h
    rcases List.mem_append.1 h with h' | h'
    · exact hpc h'
    · exact absurd (List.mem_singleton.1 h') (by decide)
  have hw2 : '_' ∉ rawName.data ++ [','] := by
    intro h
    rcases List.mem_append.1 h with h' | h'
    · exact hus h'
    · exact absurd (List.mem_singleton.1 h') (by decide)
  have hc : Char.toUpper ',' = ',' := by decide
  have hmap : (rawName.data ++ [',']).map Char.toUpper =
      upperData rawName ++ [','] := by
    simp [upperData, hc]
  rw [hdata,
    likeFuel_lit_pct (rawName.data ++ [',']) hw1 hw2 _ a.data
      (by simp only [List.length_cons, List.length_append,
            List.length_singleton]
          omega),
    hmap]
  rfl

theorem sqlLike_token_trail (rawName a : String) (hpc : '%' ∉ rawName.data)
    (hus : '_' ∉ rawName.data) :
    sqlLike ("%," ++ rawName) a = true ↔
      (',' :: upperData rawName) <:+ upperData a := by
  unfold sqlLike
  have hdata : ("%," ++ rawName).data = '%' :: (',' :: rawName.data) := by
    rw [String.data_append]
    rfl
  have hw1 : '%' ∉ ',' :: rawName.data := by
    intro h
    rcases List.mem_cons.1 h with h' | h'
    · exact absurd h' (by decide)
    · exact hpc h'
  have hw2 : '_' ∉ ',' :: rawName.data := by
    intro h
    rcases List.mem_cons.1 h with h' | h'
    · exact absurd h' (by decide)
    · exact hus h'
  have hc : Char.toUpper ',' = ',' := by decide
  have hmap : (',' :: rawName.data).map Char.toUpper =
      ',' :: upperData rawName := by
    simp [upperData, hc]
  rw [hdata,
    likeFuel_pct_lit (',' :: rawName.data) hw1 hw2 a.data _
      (by simp only [List.length_cons]
          omega),
    hmap]
  rfl

theorem get_player_alias_cond_iff (rawName : String) (p : RefPlayer)
    (hraw : ',' ∉ rawName.data) (hpc : '%' ∉ rawName.data)
    (hus : '_' ∉ rawName.data) :
    get_player_alias_cond rawName p = true ↔ aliasSpecMatch rawName p := by
  unfold get_player_alias_cond aliasSpecMatch
  cases hal : p.aliasText with
  | none => simp
  | some a =>
    simp only [Option.some.injEq]
    simp only [Bool.or_eq_true, beq_iff_eq]
    rw [sqlLike_token_inner rawName a hpc hus,
      sqlLike_token_lead rawName a hpc hus,
      sqlLike_token_trail rawName a hpc hus]
    have hR : ',' ∉ upperData rawName :=
      fun h => hraw ((comma_mem_map_toUpper rawName.data).1 h)
    have hAiff : (',' ∈ a.data) ↔ (',' ∈ upperData a) :=
      (comma_mem_map_toUpper a.data).symm
    constructor
    · rintro (((hin | hlead) | htrail) | heq)
      · have := (delims_iff (upperData a) (upperData rawName) hR).1 (Or.inl hin)
        refine ⟨a, rfl, Or.inl ⟨hAiff.2 this.1, (token_mem_iff a rawName).1 this.2⟩⟩
      · have := (delims_iff (upperData a) (upperData rawName) hR).1
          (Or.inr (Or.inl hlead))
        refine ⟨a, rfl, Or.inl ⟨hAiff.2 this.1, (token_mem_iff a rawName).1 this.2⟩⟩
      · have := (delims_iff (upperData a) (upperData rawName) hR).1
          (Or.inr (Or.inr htrail))
        refine ⟨a, rfl, Or.inl ⟨hAiff.2 this.1, (token_mem_iff a rawName).1 this.2⟩⟩
      · refine ⟨a, rfl, Or.inr ⟨?_, heq⟩⟩
        rw [heq]
        exact hraw
    · rintro ⟨a', ha', hrest⟩
      subst ha'
      rcases hrest with ⟨hcin, htok⟩ | ⟨_, heq⟩
      · have hmem := (token_mem_iff a rawName).2 htok
        have := (delims_iff (upperData a) (upperData rawName) hR).2
          ⟨hAiff.1 hcin, hmem⟩
        rcases this with h | h | h
        · exact Or.inl (Or.inl (Or.inl h))
        · exact Or.inl (Or.inl (Or.inr h))
        · exact Or.inl (Or.inr h)
      · exact Or.inr heq

/-! ### `pyStrip` / `joinComma` lemmas -/

theorem dropWhile_self_dropWhile (p : Char → Bool) (l : List Char) :
    (l.dropWhile p).dropWhile p = l.dropWhile p := by
  cases h : l.dropWhile p with
  | nil => simp
  | cons a t =>
    have ha : ¬ p a := by
      have := List.dropWhile_get_zero_not p l (by rw [h]; simp)
      simpa [h] using this
    simp [List.dropWhile_cons, ha]

theorem dropWhile_head_not (p : Char → Bool) (l : List Char) (c : Char)
    (r : List Char) (h : l.dropWhile p = c :: r) : ¬ p c := by
  have := List.dropWhile_get_zero_not p l (by rw [h]; simp)
  simpa [h] using this

theorem pyStrip_idem (s : String) : pyStrip (pyStrip s) = pyStrip s := by
  apply String.ext
  show (((pyStrip s).data.dropWhile Char.isWhitespace).reverse.dropWhile
      Char.isWhitespace).reverse = (pyStrip s).data
  have hdata : (pyStrip s).data =
      ((s.data.dropWhile Char.isWhitespace).reverse.dropWhile
        Char.isWhitespace).reverse := rfl
  set A := s.data.dropWhile Char.isWhitespace with hA
  set E := A.reverse.dropWhile Char.isWhitespace with hE
  have step1 : E.reverse.dropWhile Char.isWhitespace = E.reverse := by
    cases ht : E.reverse with
    | nil => simp
    | cons c r =>
      have hpre : E.reverse <+: A :=
        List.reverse_suffix.mp
          (by rw [List.reverse_reverse]; exact List.dropWhile_suffix _)
      obtain ⟨u, hu⟩ := hpre
      rw [ht] at hu
      have hc : ¬ Char.isWhitespace c := by
        apply dropWhile_head_not Char.isWhitespace s.data c (r ++ u)
        rw [← hA, ← hu]
        simp
      rw [List.dropWhile_cons, if_neg hc]
  rw [hdata, step1, List.reverse_reverse]
  exact congrArg List.reverse (dropWhile_self_dropWhile _ A.reverse)

theorem mem_pyStrip_data (s : String) (c : Char) (h : c ∈ (pyStrip s).data) :
    c ∈ s.data := by
  have h1 : (pyStrip s).data = ((s.data.dropWhile Char.isWhitespace).reverse.dropWhile
      Char.isWhitespace).reverse := rfl
  rw [h1, List.mem_reverse] at h
  have h2 := (List.dropWhile_suffix (l := (s.data.dropWhile Char.isWhitespace).reverse)
    Char.isWhitespace).mem h
  rw [List.mem_reverse] at h2
  exact (List.dropWhile_suffix (l := s.data) Char.isWhitespace).mem h2

theorem joinComma_data_cons (a b : String) (rest : List String) :
    (joinComma (a :: b :: rest)).data = a.data ++ ',' :: (joinComma (b :: rest)).data := by
  show (a ++ "," ++ joinComma (b :: rest)).data = _
  rw [String.data_append, String.data_append]
  simp

theorem pySplitComma_joinComma (ts : List String) (hne : ts ≠ [])
    (hcf : ∀ t ∈ ts, ',' ∉ t.data) :
    pySplitComma (joinComma ts) = ts := by
  induction ts with
  | nil => exact absurd rfl hne
  | cons a rest ih =>
    cases rest with
    | nil =>
      show pySplitComma a = [a]
      unfold pySplitComma
      rw [splitComma_of_no_comma a.data (hcf a (by simp))]
      rfl
    | cons b rest' =>
      unfold pySplitComma
      rw [joinComma_data_cons a b rest',
        splitComma_append_comma a.data _ (hcf a (by simp))]
      have ihr := ih (by simp) (fun t ht => hcf t (List.mem_cons_of_mem a ht))
      unfold pySplitComma at ihr
      simp only [List.map_cons]
      rw [ihr]

theorem joinComma_ne_empty (ts : List String) (t : String) (ht : t ∈ ts)
    (htne : t ≠ "") : joinComma ts ≠ "" := by
  cases ts with
  | nil => simp at ht
  | cons a rest =>
    cases rest with
    | nil =>
      simp only [List.mem_singleton] at ht
      subst ht
      exact htne
    | cons b rest' =>
      intro h
      have := congrArg String.data h
      rw [joinComma_data_cons a b rest'] at this
      simp at this

theorem parsedAliases_comma_free (p : RefPlayer) (t : String)
    (ht : t ∈ parsedAliases p) : ',' ∉ t.data := by
  unfold parsedAliases at ht
  cases hal : p.aliasText with
  | none => rw [hal] at ht; simp at ht
  | some s =>
    rw [hal] at ht
    simp only at ht
    by_cases hs : s == ""
    · rw [if_pos hs] at ht; simp at ht
    · rw [if_neg hs] at ht
      obtain ⟨t', ht', rfl⟩ := List.mem_map.1 ht
      intro hc
      have hc' := mem_pyStrip_data t' ',' hc
      unfold pySplitComma at ht'
      obtain ⟨l, hl, rfl⟩ := List.mem_map.1 ht'
      exact mem_splitComma_no_comma s.data l hl hc'

theorem parsedAliases_stripped (p : RefPlayer) (t : String)
    (ht : t ∈ parsedAliases p) : pyStrip t = t := by
  unfold parsedAliases at ht
  cases hal : p.aliasText with
  | none => rw [hal] at ht; simp at ht
  | some s =>
    rw [hal] at ht
    simp only at ht
    by_cases hs : s == ""
    · rw [if_pos hs] at ht; simp at ht
    · rw [if_neg hs] at ht
      obtain ⟨t', _, rfl⟩ := List.mem_map.1 ht
      exact pyStrip_idem t'

theorem parsedAliases_after_update (p : RefPlayer) (na : String)
    (hne : na ≠ "") (hcf : ',' ∉ na.data) (hstrip : pyStrip na = na) :
    parsedAliases
        { p with aliasText := some (joinComma (parsedAliases p ++ [na])) } =
      parsedAliases p ++ [na] := by
  have hmem : na ∈ parsedAliases p ++ [na] := by simp
  have hjoin_ne : joinComma (parsedAliases p ++ [na]) ≠ "" :=
    joinComma_ne_empty _ na hmem hne
  have hcf' : ∀ t ∈ parsedAliases p ++ [na], ',' ∉ t.data := by
    intro t ht
    rcases List.mem_append.1 ht with h | h
    · exact parsedAliases_comma_free p t h
    · simp only [List.mem_singleton] at h
      subst h
      exact hcf
  have houter : parsedAliases
      { p with aliasText := some (joinComma (parsedAliases p ++ [na])) } =
      if (joinComma (parsedAliases p ++ [na]) == "") = true then []
      else (pySplitComma (joinComma (parsedAliases p ++ [na]))).map pyStrip := rfl
  rw [houter, if_neg (by simpa using hjoin_ne)]
  rw [pySplitComma_joinComma _ (by simp) hcf']
  rw [List.map_append]
  congr 1
  · conv_rhs => rw [← List.map_id (parsedAliases p)]
    apply List.map_congr_left
    intro t ht
    exact parsedAliases_stripped p t ht
  · simp [hstrip]

theorem find?_update_players (players : List RefPlayer) (pid : Nat)
    (upd : RefPlayer → RefPlayer) (hupd : ∀ q, (upd q).id = q.id) :
    (players.map (fun q => if q.id == pid then upd q else q)).find?
        (fun p => p.id == pid) =
      (players.find? (fun p => p.id == pid)).map
        (fun q => if q.id == pid then upd q else q) := by
  rw [List.find?_map]
  have hpred : ((fun p : RefPlayer => p.id == pid) ∘
      fun q => if q.id == pid then upd q else q) =
      (fun p : RefPlayer => p.id == pid) := by
    funext q
    simp only [Function.comp_apply]
    by_cases h : q.id == pid
    · rw [if_pos h, hupd q]
    · rw [if_neg h]
  rw [hpred]

/-- C9 (amended): `add_player_alias` is idempotent for a present player id
and a stripped-non-empty, comma-FREE alias: both calls succeed and the
second leaves the reference database exactly as the first did (an alias
containing a comma breaks this, see the counterexample). -/
theorem add_player_alias_idem (ref : RefDb) (pid : Nat) (al : String)
    (hid : ∃ p ∈ ref.players, p.id = pid)
    (hne : pyStrip al ≠ "") (hcf : ',' ∉ (pyStrip al).data) :
    (ref.add_player_alias pid al).1 = true ∧
    ((ref.add_player_alias pid al).2.add_player_alias pid al).1 = true ∧
    ((ref.add_player_alias pid al).2.add_player_alias pid al).2 =
      (ref.add_player_alias pid al).2 := by
  obtain ⟨p0, hp0mem, hp0id⟩ := hid
  have hfind : (ref.players.find? (fun p => p.id == pid)).isSome := by
    rw [List.find?_isSome]
    exact ⟨p0, hp0mem, by simp [hp0id]⟩
  obtain ⟨p, hp⟩ := Option.isSome_iff_exists.1 hfind
  have hpid : p.id = pid := by simpa using List.find?_some hp
  by_cases hmem : pyStrip al ∈ parsedAliases p
  · have h1 : ref.add_player_alias pid al = (true, ref) := by
      unfold RefDb.add_player_alias
      rw [hp]
      simp only
      rw [if_neg (by simp [hmem]), if_pos hmem]
    rw [h1]
    exact ⟨rfl, by rw [h1], by rw [h1]⟩
  · have h1 : ref.add_player_alias pid al =
        (true, { ref with players := ref.players.map (fun q =>
          if q.id == pid then { q with aliasText := some (joinComma (parsedAliases p ++ [pyStrip al])) } else q) }) := by
      unfold RefDb.add_player_alias
      rw [hp]
      simp only
      rw [if_pos ⟨hne, hmem⟩]
    have hpar := parsedAliases_after_update p (pyStrip al) hne hcf (pyStrip_idem al)
    have hmem2 : pyStrip al ∈ parsedAliases p ++ [pyStrip al] := by simp
    have hsecond : ((ref.add_player_alias pid al).2).add_player_alias pid al =
        (true, (ref.add_player_alias pid al).2) := by
      rw [h1]
      unfold RefDb.add_player_alias
      rw [find?_update_players ref.players pid (fun q => { q with aliasText := some (joinComma (parsedAliases p ++ [pyStrip al])) }) (fun q => rfl), hp]
      simp only [Option.map_some']
      have hif : (if (p.id == pid) = true then ({ p with aliasText := some (joinComma (parsedAliases p ++ [pyStrip al])) } : RefPlayer) else p) = { p with aliasText := some (joinComma (parsedAliases p ++ [pyStrip al])) } := if_pos (by simp [hpid])
      rw [hif]
      rw [hpar]
      rw [if_neg (by simp [hmem2]), if_pos hmem2]
    refine ⟨by rw [h1], by rw [hsecond], by rw [hsecond]⟩

/-- C7 (amended): for raw names without commas and without the SQL `LIKE`
wildcards `%` and `_` (the raw name is interpolated into the `LIKE`
patterns, so a wildcard in it changes the match semantics — see the
counterexample), `get_player` finds a row iff its trimmed primary name
matches case-insensitively, or its alias list matches as a whole token —
case-insensitively when the stored list contains a comma, but only by
case-SENSITIVE equality when it holds a single alias (see
`aliasSpecMatch`). -/
theorem get_player_isSome_iff (ref : RefDb) (rawName : String)
    (hraw : ',' ∉ rawName.data) (hpc : '%' ∉ rawName.data)
    (hus : '_' ∉ rawName.data) :
    (ref.get_player rawName).isSome ↔
      ∃ p ∈ ref.players,
        upperStr (sqlTrim p.name) = upperStr rawName ∨ aliasSpecMatch rawName p := by
  unfold RefDb.get_player
  cases hn : ref.players.find? (get_player_name_cond rawName) with
  | some p =>
    simp only [Option.isSome_some, true_iff]
    refine ⟨p, List.mem_of_find?_eq_some hn, Or.inl ?_⟩
    have := List.find?_some hn
    unfold get_player_name_cond at this
    simpa using this
  | none =>
    rw [List.find?_eq_none] at hn
    simp only
    rw [List.find?_isSome]
    constructor
    · rintro ⟨p, hpmem, hpcond⟩
      exact ⟨p, hpmem, Or.inr ((get_player_alias_cond_iff rawName p hraw hpc hus).1 hpcond)⟩
    · rintro ⟨p, hpmem, hname | halias⟩
      · exact absurd (by unfold get_player_name_cond; simp [hname]) (hn p hpmem)
      · exact ⟨p, hpmem, (get_player_alias_cond_iff rawName p hraw hpc hus).2 halias⟩

/-! ### Roster-fold lemmas for the rating engines -/

theorem updateSide_ratings_not_mem (k e a : ℝ) (side : List PlayerStatRow)
    (pid : Nat) (hni : ∀ s ∈ side, s.playerId ≠ pid) :
    ∀ (r : Ratings) (h : List PlayerUpdate),
      (updateSide k e a (r, h) side).1 pid = r pid := by
  induction side with
  | nil => intro r h; rfl
  | cons s rest ih =>
    intro r h
    have hs : s.playerId ≠ pid := hni s (by simp)
    have hrest : ∀ x ∈ rest, x.playerId ≠ pid :=
      fun x hx => hni x (List.mem_cons_of_mem s hx)
    unfold updateSide
    simp only [List.foldl_cons]
    have := ih hrest (updateRating r s.playerId
      (calculate_new_rating (r s.playerId) e a k)) (h ++ [⟨s.playerId, s.playerName,
        r s.playerId, calculate_new_rating (r s.playerId) e a k,
        calculate_new_rating (r s.playerId) e a k - r s.playerId⟩])
    unfold updateSide at this
    rw [this]
    unfold updateRating
    rw [if_neg (fun hh => hs hh.symm)]

theorem updateSide_ratings_mem (k e a : ℝ) (side : List PlayerStatRow)
    (pid : Nat) (hnd : (side.map (·.playerId)).Nodup)
    (hmem : ∃ s ∈ side, s.playerId = pid) :
    ∀ (r : Ratings) (h : List PlayerUpdate),
      (updateSide k e a (r, h) side).1 pid =
        calculate_new_rating (r pid) e a k := by
  induction side with
  | nil => simp at hmem
  | cons s rest ih =>
    intro r h
    simp only [List.map_cons, List.nodup_cons] at hnd
    by_cases hs : s.playerId = pid
    · have hrest : ∀ x ∈ rest, x.playerId ≠ pid := by
        intro x hx he
        apply hnd.1
        have hmm : x.playerId ∈ rest.map (·.playerId) :=
          List.mem_map_of_mem (·.playerId) hx
        rw [he, ← hs] at hmm
        exact hmm
      unfold updateSide
      simp only [List.foldl_cons]
      have hn := updateSide_ratings_not_mem k e a rest pid hrest
        (updateRating r s.playerId (calculate_new_rating (r s.playerId) e a k))
        (h ++ [⟨s.playerId, s.playerName, r s.playerId,
          calculate_new_rating (r s.playerId) e a k,
          calculate_new_rating (r s.playerId) e a k - r s.playerId⟩])
      unfold updateSide at hn
      rw [hn]
      unfold updateRating
      rw [if_pos hs.symm, hs]
    · obtain ⟨x, hx, hxid⟩ := hmem
      have hxrest : x ∈ rest := by
        rcases List.mem_cons.1 hx with h1 | h1
        · exact absurd (h1 ▸ hxid) hs
        · exact h1
      unfold updateSide
      simp only [List.foldl_cons]
      have := ih hnd.2 ⟨x, hxrest, hxid⟩
        (updateRating r s.playerId (calculate_new_rating (r s.playerId) e a k))
        (h ++ [⟨s.playerId, s.playerName, r s.playerId,
          calculate_new_rating (r s.playerId) e a k,
          calculate_new_rating (r s.playerId) e a k - r s.playerId⟩])
      unfold updateSide at this
      rw [this]
      unfold updateRating
      rw [if_neg (fun hh => hs hh.symm)]

theorem updateGeneralSide_ratings_not_mem (k e a : ℝ) (side : List PlayerStatRow)
    (pid : Nat) (hni : ∀ s ∈ side, s.playerId ≠ pid) :
    ∀ (r : Ratings) (h : List RoleUpdate),
      (updateGeneralSide k e a (r, h) side).1 pid = r pid := by
  induction side with
  | nil => intro r h; rfl
  | cons s rest ih =>
    intro r h
    have hs : s.playerId ≠ pid := hni s (by simp)
    have hrest : ∀ x ∈ rest, x.playerId ≠ pid :=
      fun x hx => hni x (List.mem_cons_of_mem s hx)
    unfold updateGeneralSide
    simp only [List.foldl_cons]
    have := ih hrest (updateRating r s.playerId
      (calculate_new_rating (r s.playerId) e a k)) (h ++ [⟨s.playerId, s.playerName,
        s.role, r s.playerId, calculate_new_rating (r s.playerId) e a k,
        calculate_new_rating (r s.playerId) e a k - r s.playerId⟩])
    unfold updateGeneralSide at this
    rw [this]
    unfold updateRating
    rw [if_neg (fun hh => hs hh.symm)]

theorem updateRoleSide_ratings_not_mem (role : String) (k e a : ℝ)
    (side : List PlayerStatRow) (pid : Nat)
    (hni : ∀ s ∈ side, s.playerId = pid → s.role ≠ some role) :
    ∀ (r : Ratings) (h : List RoleUpdate),
      (updateRoleSide role k e a (r, h) side).1 pid = r pid := by
  induction side with
  | nil => intro r h; rfl
  | cons s rest ih =>
    intro r h
    have hrest : ∀ x ∈ rest, x.playerId = pid → x.role ≠ some role :=
      fun x hx => hni x (List.mem_cons_of_mem s hx)
    unfold updateRoleSide
    simp only [List.foldl_cons]
    by_cases hrole : s.role = some role
    · rw [if_pos hrole]
      have hs : s.playerId ≠ pid := fun hh => hni s (by simp) hh hrole
      have := ih hrest (updateRating r s.playerId
        (calculate_new_rating (r s.playerId) e a k)) (h ++ [⟨s.playerId,
          s.playerName, s.role, r s.playerId,
          calculate_new_rating (r s.playerId) e a k,
          calculate_new_rating (r s.playerId) e a k - r s.playerId⟩])
      unfold updateRoleSide at this
      rw [this]
      unfold updateRating
      rw [if_neg (fun hh => hs hh.symm)]
    · rw [if_neg hrole]
      have := ih hrest r h
      unfold updateRoleSide at this
      rw [this]

theorem updateRoleSide_ratings_mem (role : String) (k e a : ℝ)
    (side : List PlayerStatRow) (pid : Nat)
    (hnd : (side.map (·.playerId)).Nodup)
    (hmem : ∃ s ∈ side, s.playerId = pid ∧ s.role = some role) :
    ∀ (r : Ratings) (h : List RoleUpdate),
      (updateRoleSide role k e a (r, h) side).1 pid =
        calculate_new_rating (r pid) e a k := by
  induction side with
  | nil => simp at hmem
  | cons s rest ih =>
    intro r h
    simp only [List.map_cons, List.nodup_cons] at hnd
    by_cases hs : s.playerId = pid
    · have hrest : ∀ x ∈ rest, x.playerId ≠ pid := by
        intro x hx he
        apply hnd.1
        have hmm : x.playerId ∈ rest.map (·.playerId) :=
          List.mem_map_of_mem (·.playerId) hx
        rw [he, ← hs] at hmm
        exact hmm
      have hsrole : s.role = some role := by
        obtain ⟨x, hx, hxid, hxrole⟩ := hmem
        rcases List.mem_cons.1 hx with h1 | h1
        · exact h1 ▸ hxrole
        · exact absurd hxid (hrest x h1)
      unfold updateRoleSide
      simp only [List.foldl_cons]
      rw [if_pos hsrole]
      have hn := updateRoleSide_ratings_not_mem role k e a rest pid
        (fun x hx hxid _ => hrest x hx hxid)
        (updateRating r s.playerId (calculate_new_rating (r s.playerId) e a k))
        (h ++ [⟨s.playerId, s.playerName, s.role, r s.playerId,
          calculate_new_rating (r s.playerId) e a k,
          calculate_new_rating (r s.playerId) e a k - r s.playerId⟩])
      unfold updateRoleSide at hn
      rw [hn]
      unfold updateRating
      rw [if_pos hs.symm, hs]
    · obtain ⟨x, hx, hxid, hxrole⟩ := hmem
      have hxrest : x ∈ rest := by
        rcases List.mem_cons.1 hx with h1 | h1
        · exact absurd (h1 ▸ hxid) hs
        · exact h1
      unfold updateRoleSide
      simp only [List.foldl_cons]
      by_cases hrole : s.role = some role
      · rw [if_pos hrole]
        have := ih hnd.2 ⟨x, hxrest, hxid, hxrole⟩
          (updateRating r s.playerId (calculate_new_rating (r s.playerId) e a k))
          (h ++ [⟨s.playerId, s.playerName, s.role, r s.playerId,
            calculate_new_rating (r s.playerId) e a k,
            calculate_new_rating (r s.playerId) e a k - r s.playerId⟩])
        unfold updateRoleSide at this
        rw [this]
        unfold updateRating
        rw [if_neg (fun hh => hs hh.symm)]
      · rw [if_neg hrole]
        have := ih hnd.2 ⟨x, hxrest, hxid, hxrole⟩ r h
        unfold updateRoleSide at this
        rw [this]

/-! ### ELO arithmetic facts -/

theorem calculate_expected_outcome_pos (a b : ℝ) :
    0 < calculate_expected_outcome a b := by
  unfold calculate_expected_outcome
  positivity

theorem calculate_expected_outcome_lt_one (a b : ℝ) :
    calculate_expected_outcome a b < 1 := by
  unfold calculate_expected_outcome
  rw [div_lt_one (by positivity)]
  have h : (0 : ℝ) < (10 : ℝ) ^ ((b - a) / 400) := Real.rpow_pos_of_pos (by norm_num) _
  linarith

theorem calculate_new_rating_ne (r e a k : ℝ) (hk : k ≠ 0) (hae : a ≠ e) :
    calculate_new_rating r e a k ≠ r := by
  unfold calculate_new_rating
  intro h
  have : k * (a - e) = 0 := by linarith
  rcases mul_eq_zero.1 this with h1 | h1
  · exact hk h1
  · exact hae (by linarith)

theorem imperialActual_ne_expected (m : MatchRow) (x y : ℝ) :
    imperialActual m ≠ calculate_expected_outcome x y := by
  have h1 := calculate_expected_outcome_pos x y
  have h2 := calculate_expected_outcome_lt_one x y
  unfold imperialActual
  by_cases h : m.winner = "IMPERIAL"
  · rw [if_pos h]; intro he; rw [← he] at h2; norm_num at h2
  · rw [if_neg h]; intro he; rw [← he] at h1; norm_num at h1

theorem rebelActual_ne_one_sub_expected (m : MatchRow) (x y : ℝ) :
    rebelActual m ≠ 1.0 - calculate_expected_outcome x y := by
  have h1 := calculate_expected_outcome_pos x y
  have h2 := calculate_expected_outcome_lt_one x y
  unfold rebelActual
  by_cases h : m.winner = "IMPERIAL"
  · rw [if_pos h]; intro he; norm_num at he; linarith
  · rw [if_neg h]; intro he; norm_num at he; linarith

/-- C1: The ELO update computes
`expected_A = 1/(1 + 10^((rating_B - rating_A)/400))`, every roster
member's new rating is `old + k_factor * (actual - expected)`, and for two
single-member sides both rated 1000 with `k_factor` 32 and a decisive
result the winner moves to 1016 and the loser to 984. -/
theorem c1_elo_update_formula :
    (∀ ra rb : ℝ, calculate_expected_outcome ra rb =
        1 / (1 + (10 : ℝ) ^ ((rb - ra) / 400))) ∧
    (∀ (k e a : ℝ) (side : List PlayerStatRow) (pid : Nat)
        (r : Ratings) (h : List PlayerUpdate),
        (side.map (·.playerId)).Nodup → (∃ s ∈ side, s.playerId = pid) →
        (updateSide k e a (r, h) side).1 pid = r pid + k * (a - e)) ∧
    (∀ (db : Db) (m : MatchRow), m.winner = "IMPERIAL" →
        m.imperialTeamId ≠ m.rebelTeamId →
        (processTeamMatch db 32 (initialTeamState 1000) m).ratings
            m.imperialTeamId = 1016 ∧
        (processTeamMatch db 32 (initialTeamState 1000) m).ratings
            m.rebelTeamId = 984) := by
  refine ⟨?_, ?_, ?_⟩
  · intro ra rb
    unfold calculate_expected_outcome
    norm_num
  · intro k e a side pid r h hnd hmem
    rw [updateSide_ratings_mem k e a side pid hnd hmem r h]
    unfold calculate_new_rating
    ring
  · intro db m hw hne
    have hact1 : imperialActual m = 1 := by
      unfold imperialActual; rw [if_pos hw]; norm_num
    have hact0 : rebelActual m = 0 := by
      unfold rebelActual; rw [if_pos hw]; norm_num
    have hexp : calculate_expected_outcome ((initialTeamState 1000).ratings
        m.imperialTeamId) ((initialTeamState 1000).ratings m.rebelTeamId) =
        1 / 2 := by
      show calculate_expected_outcome 1000 1000 = 1 / 2
      unfold calculate_expected_outcome
      norm_num
    constructor
    · show updateRating (updateRating (initialTeamState 1000).ratings
        m.imperialTeamId _) m.rebelTeamId _ m.imperialTeamId = 1016
      unfold updateRating
      rw [if_neg hne, if_pos rfl, hexp, hact1]
      show calculate_new_rating 1000 (1 / 2) 1 32 = 1016
      unfold calculate_new_rating
      norm_num
    · show updateRating (updateRating (initialTeamState 1000).ratings
        m.imperialTeamId _) m.rebelTeamId _ m.rebelTeamId = 984
      unfold updateRating
      rw [if_pos rfl, hexp, hact0]
      show calculate_new_rating 1000 (1.0 - 1 / 2) 0 32 = 984
      unfold calculate_new_rating
      norm_num

theorem c1_elo_update_formula_witness :
    calculate_expected_outcome 7 9 = 1 / (1 + (10 : ℝ) ^ (((9 : ℝ) - 7) / 400)) ∧
    (updateSide 32 (1 / 2) 1 ((fun _ => 1000), []) [sampleStat]).1 1 =
      1000 + 32 * (1 - 1 / 2) ∧
    (processTeamMatch emptyDb 32 (initialTeamState 1000) sampleMatch).ratings 1 =
      1016 ∧
    (processTeamMatch emptyDb 32 (initialTeamState 1000) sampleMatch).ratings 2 =
      984 := by
  refine ⟨c1_elo_update_formula.1 7 9, ?_, ?_⟩
  · exact c1_elo_update_formula.2.1 32 (1 / 2) 1 [sampleStat] 1 (fun _ => 1000) []
      (by decide) ⟨sampleStat, by simp, rfl⟩
  · exact c1_elo_update_formula.2.2 emptyDb sampleMatch rfl (by decide)

/-! ### Query-order determinism -/

theorem queryResultOk_unique (pred : MatchRow → Bool) (tbl l1 l2 : List MatchRow)
    (hnd : (tbl.map (·.id)).Nodup)
    (h1 : queryResultOk pred dateIdLe tbl l1)
    (h2 : queryResultOk pred dateIdLe tbl l2) : l1 = l2 := by
  obtain ⟨hp1, hs1⟩ := h1
  obtain ⟨hp2, hs2⟩ := h2
  have hperm : l1.Perm l2 := hp1.trans hp2.symm
  have hndf : ((tbl.filter pred).map (·.id)).Nodup :=
    List.Nodup.sublist ((tbl.filter_sublist).map (·.id)) hnd
  have hnd1 : (l1.map (·.id)).Nodup := ((hp1.map (·.id)).nodup_iff).2 hndf
  have hnd2 : (l2.map (·.id)).Nodup := ((hp2.map (·.id)).nodup_iff).2 hndf
  haveI : IsAntisymm MatchRow (fun a b => dateIdLe a b ∧ a.id ≠ b.id) := by
    constructor
    rintro a b ⟨hab, hne⟩ ⟨hba, _⟩
    exfalso
    unfold dateIdLe at hab hba
    rcases hab with h | ⟨hd, hi⟩ <;> rcases hba with h' | ⟨hd', hi'⟩
    · exact absurd h' (lt_asymm h)
    · exact absurd h (hd' ▸ lt_irrefl _)
    · exact absurd h' (hd ▸ lt_irrefl _)
    · exact hne (Nat.le_antisymm hi hi')
  have hsr1 : l1.Sorted (fun a b => dateIdLe a b ∧ a.id ≠ b.id) :=
    hs1.and (List.pairwise_map.mp hnd1)
  have hsr2 : l2.Sorted (fun a b => dateIdLe a b ∧ a.id ≠ b.id) :=
    hs2.and (List.pairwise_map.mp hnd2)
  exact List.eq_of_perm_of_sorted hperm hsr1 hsr2

/-- C2 (amended): the player/role-engine and team-engine queries order
matches by (timestamp, then id); since ids are unique, the admissible
result stream is unique and replaying it reproduces bit-identical history
and final ratings.  The combined ladder's query orders by timestamp only
(see the counterexample), so equal-timestamp order is not pinned there. -/
theorem c2_sequential_deterministic_replay (db : Db) (matchType : String)
    (startingElo kFactor : ℝ) (l1 l2 t1 t2 : List MatchRow)
    (hnd : (db.matchTable.map (·.id)).Nodup)
    (h1 : queryResultOk (playerQueryPred db matchType) dateIdLe db.matchTable l1)
    (h2 : queryResultOk (playerQueryPred db matchType) dateIdLe db.matchTable l2)
    (ht1 : queryResultOk (teamQueryPred db matchType) dateIdLe db.matchTable t1)
    (ht2 : queryResultOk (teamQueryPred db matchType) dateIdLe db.matchTable t2) :
    l1 = l2 ∧
    processPlayerMatches db kFactor (initialPlayerState startingElo) l1 =
      processPlayerMatches db kFactor (initialPlayerState startingElo) l2 ∧
    processRoleMatches db kFactor (initialRoleState startingElo) l1 =
      processRoleMatches db kFactor (initialRoleState startingElo) l2 ∧
    t1 = t2 ∧
    processTeamMatches db kFactor (initialTeamState startingElo) t1 =
      processTeamMatches db kFactor (initialTeamState startingElo) t2 := by
  have e1 := queryResultOk_unique _ _ _ _ hnd h1 h2
  have e2 := queryResultOk_unique _ _ _ _ hnd ht1 ht2
  exact ⟨e1, by rw [e1], by rw [e1], e2, by rw [e2]⟩

/-- C2 counterexample: `generate_combined_ladder`'s query orders by
`match_date` alone, so the stream `[cm2, cm1]` — equal timestamps, ids out
of order — is an admissible result that is not ordered by
(timestamp, then id). -/
theorem c2_counterexample :
    queryResultOk (combinedQueryPred combinedDb) dateLe
      combinedDb.matchTable [cm2, cm1] ∧
    ¬ List.Sorted dateIdLe [cm2, cm1] := by
  refine ⟨⟨by decide, ?_⟩, ?_⟩
  · refine List.sorted_cons.2 ⟨?_, List.sorted_singleton _⟩
    intro b hb
    rw [List.mem_singleton] at hb
    subst hb
    exact le_of_eq rfl
  · intro hs
    have h : dateIdLe cm2 cm1 :=
      List.rel_of_sorted_cons hs cm1 (List.mem_singleton_self cm1)
    rcases h with h | ⟨heq, hid⟩
    · exact lt_irrefl cm1.matchDate h
    · exact absurd hid (by decide)

theorem c2_sequential_deterministic_replay_witness :
    (combinedDb.matchTable.map (·.id)).Nodup ∧
    queryResultOk (playerQueryPred combinedDb "team") dateIdLe
      combinedDb.matchTable [cm1, cm2] ∧
    queryResultOk (teamQueryPred combinedDb "team") dateIdLe
      combinedDb.matchTable [cm1, cm2] ∧
    processTeamMatches combinedDb 32 (initialTeamState 1000) [cm1, cm2] =
      processTeamMatches combinedDb 32 (initialTeamState 1000) [cm1, cm2] := by
  have hsorted : List.Sorted dateIdLe [cm1, cm2] := by
    refine List.sorted_cons.2 ⟨?_, List.sorted_singleton _⟩
    intro b hb
    rw [List.mem_singleton] at hb
    subst hb
    exact Or.inr ⟨rfl, by decide⟩
  have hnd : (combinedDb.matchTable.map (·.id)).Nodup := by decide
  have hp : queryResultOk (playerQueryPred combinedDb "team") dateIdLe
      combinedDb.matchTable [cm1, cm2] := ⟨by decide, hsorted⟩
  have ht : queryResultOk (teamQueryPred combinedDb "team") dateIdLe
      combinedDb.matchTable [cm1, cm2] := ⟨by decide, hsorted⟩
  exact ⟨hnd, hp, ht,
    (c2_sequential_deterministic_replay combinedDb "team" 1000 32 [cm1, cm2]
      [cm1, cm2] [cm1, cm2] [cm1, cm2] hnd hp hp ht ht).2.2.2.2⟩

theorem roleStep_ratings_not_mem (role : String) (k ei ai er ar : ℝ)
    (r : Ratings) (imp reb : List PlayerStatRow) (pid : Nat)
    (hni : ∀ s ∈ imp ++ reb, ¬ (s.playerId = pid ∧ s.role = some role)) :
    (roleStep role k ei ai er ar r imp reb).1 pid = r pid := by
  unfold roleStep
  simp only
  rw [updateRoleSide_ratings_not_mem role k er ar reb pid
    (fun s hs hsid hsrole => hni s (List.mem_append_right imp hs) ⟨hsid, hsrole⟩)]
  rw [updateRoleSide_ratings_not_mem role k ei ai imp pid
    (fun s hs hsid hsrole => hni s (List.mem_append_left reb hs) ⟨hsid, hsrole⟩)]

theorem roleStep_ratings_mem_imp (role : String) (k ei ai er ar : ℝ)
    (r : Ratings) (imp reb : List PlayerStatRow) (pid : Nat)
    (hnd : ((imp ++ reb).map (·.playerId)).Nodup)
    (hmem : ∃ s ∈ imp, s.playerId = pid ∧ s.role = some role) :
    (roleStep role k ei ai er ar r imp reb).1 pid =
      calculate_new_rating (r pid) ei ai k := by
  rw [List.map_append, List.nodup_append] at hnd
  have hnireb : ∀ s ∈ reb, s.playerId ≠ pid := by
    intro s hs he
    obtain ⟨x, hx, hxid, _⟩ := hmem
    have h1 : x.playerId ∈ imp.map (·.playerId) :=
      List.mem_map_of_mem (·.playerId) hx
    have h2 : s.playerId ∈ reb.map (·.playerId) :=
      List.mem_map_of_mem (·.playerId) hs
    rw [hxid] at h1
    rw [he] at h2
    exact hnd.2.2 h1 h2
  unfold roleStep
  simp only
  rw [updateRoleSide_ratings_not_mem role k er ar reb pid
    (fun s hs hsid _ => absurd hsid (hnireb s hs))]
  exact updateRoleSide_ratings_mem role k ei ai imp pid hnd.1 hmem r []

theorem roleStep_ratings_mem_reb (role : String) (k ei ai er ar : ℝ)
    (r : Ratings) (imp reb : List PlayerStatRow) (pid : Nat)
    (hnd : ((imp ++ reb).map (·.playerId)).Nodup)
    (hmem : ∃ s ∈ reb, s.playerId = pid ∧ s.role = some role) :
    (roleStep role k ei ai er ar r imp reb).1 pid =
      calculate_new_rating (r pid) er ar k := by
  rw [List.map_append, List.nodup_append] at hnd
  have hniimp : ∀ s ∈ imp, s.playerId ≠ pid := by
    intro s hs he
    obtain ⟨x, hx, hxid, _⟩ := hmem
    have h1 : s.playerId ∈ imp.map (·.playerId) :=
      List.mem_map_of_mem (·.playerId) hs
    have h2 : x.playerId ∈ reb.map (·.playerId) :=
      List.mem_map_of_mem (·.playerId) hx
    rw [he] at h1
    rw [hxid] at h2
    exact hnd.2.2 h1 h2
  unfold roleStep
  simp only
  rw [updateRoleSide_ratings_mem role k er ar reb pid hnd.2.1 hmem]
  rw [updateRoleSide_ratings_not_mem role k ei ai imp pid
    (fun s hs hsid _ => absurd hsid (hniimp s hs))]

/-- C3: in role-specific ELO generation, for a processed decisive match
(both rosters present, distinct participants), a player's rating in the
pool of each role changes iff the player appears on a roster with that
per-match role, and every role-pool update applies the expected outcome
computed from the GENERAL (role-agnostic) team-average ratings of the two
sides — never from a role-restricted average. -/
theorem c3_role_pool_update (db : Db) (kFactor : ℝ) (st : RoleEngineState)
    (m : MatchRow) (role : String)
    (hrole : role = "Flex" ∨ role = "Support" ∨ role = "Farmer")
    (hdec : decisiveB m = true)
    (himp : imperialRoster db m ≠ []) (hreb : rebelRoster db m ≠ [])
    (hnd : ((imperialRoster db m ++ rebelRoster db m).map (·.playerId)).Nodup)
    (hk : kFactor ≠ 0) (pid : Nat) :
    (rolePool (processRoleMatch db kFactor st m) role pid ≠ rolePool st role pid
      ↔ ∃ s ∈ imperialRoster db m ++ rebelRoster db m,
          s.playerId = pid ∧ s.role = some role) ∧
    (∀ s ∈ imperialRoster db m, s.playerId = pid → s.role = some role →
      rolePool (processRoleMatch db kFactor st m) role pid =
        rolePool st role pid + kFactor * (imperialActual m -
          calculate_expected_outcome
            (sideAvg st.general (imperialRoster db m))
            (sideAvg st.general (rebelRoster db m)))) ∧
    (∀ s ∈ rebelRoster db m, s.playerId = pid → s.role = some role →
      rolePool (processRoleMatch db kFactor st m) role pid =
        rolePool st role pid + kFactor * (rebelActual m -
          (1.0 - calculate_expected_outcome
            (sideAvg st.general (imperialRoster db m))
            (sideAvg st.general (rebelRoster db m))))) := by
  have hguard : ((imperialRoster db m).isEmpty || (rebelRoster db m).isEmpty)
      = false := by
    rw [Bool.or_eq_false_iff]
    constructor
    · cases h : imperialRoster db m with
      | nil => exact absurd h himp
      | cons a t => rfl
    · cases h : rebelRoster db m with
      | nil => exact absurd h hreb
      | cons a t => rfl
  have hstep : rolePool (processRoleMatch db kFactor st m) role =
      (roleStep role kFactor
        (calculate_expected_outcome (sideAvg st.general (imperialRoster db m))
          (sideAvg st.general (rebelRoster db m)))
        (imperialActual m)
        (1.0 - calculate_expected_outcome
          (sideAvg st.general (imperialRoster db m))
          (sideAvg st.general (rebelRoster db m)))
        (rebelActual m)
        (rolePool st role) (imperialRoster db m) (rebelRoster db m)).1 := by
    unfold processRoleMatch
    simp only
    rw [hguard]
    rcases hrole with h | h | h <;> subst h <;> unfold rolePool <;> simp
  refine ⟨?_, ?_, ?_⟩
  · constructor
    · intro hne
      by_contra hnex
      apply hne
      rw [hstep]
      apply roleStep_ratings_not_mem
      intro s hs hcon
      exact hnex ⟨s, hs, hcon⟩
    · rintro ⟨s, hs, hsid, hsrole⟩
      rcases List.mem_append.1 hs with hsimp | hsreb
      · rw [hstep, roleStep_ratings_mem_imp _ _ _ _ _ _ _ _ _ _ hnd
          ⟨s, hsimp, hsid, hsrole⟩]
        exact calculate_new_rating_ne _ _ _ _ hk
          (imperialActual_ne_expected m _ _)
      · rw [hstep, roleStep_ratings_mem_reb _ _ _ _ _ _ _ _ _ _ hnd
          ⟨s, hsreb, hsid, hsrole⟩]
        exact calculate_new_rating_ne _ _ _ _ hk
          (rebelActual_ne_one_sub_expected m _ _)
  · intro s hs hsid hsrole
    rw [hstep, roleStep_ratings_mem_imp _ _ _ _ _ _ _ _ _ _ hnd
      ⟨s, hs, hsid, hsrole⟩]
    unfold calculate_new_rating
    ring
  · intro s hs hsid hsrole
    rw [hstep, roleStep_ratings_mem_reb _ _ _ _ _ _ _ _ _ _ hnd
      ⟨s, hs, hsid, hsrole⟩]
    unfold calculate_new_rating
    ring

theorem c3_role_pool_update_witness :
    decisiveB roleMatch = true ∧
    imperialRoster roleDb roleMatch ≠ [] ∧
    rebelRoster roleDb roleMatch ≠ [] ∧
    (((imperialRoster roleDb roleMatch ++ rebelRoster roleDb roleMatch).map
      (·.playerId)).Nodup) ∧
    (rolePool (processRoleMatch roleDb 32 (initialRoleState 1000) roleMatch)
        "Flex" 1 ≠ rolePool (initialRoleState 1000) "Flex" 1 ↔
      ∃ s ∈ imperialRoster roleDb roleMatch ++ rebelRoster roleDb roleMatch,
        s.playerId = 1 ∧ s.role = some "Flex") := by
  exact ⟨by decide, by decide, by decide, by decide,
    (c3_role_pool_update roleDb 32 (initialRoleState 1000) roleMatch "Flex"
      (Or.inl rfl) (by decide) (by decide) (by decide) (by decide)
      (by norm_num) 1).1⟩

/-! ### Missing-roster exclusion -/

theorem processPlayerMatch_skip (db : Db) (k : ℝ) (st : PlayerEngineState)
    (m : MatchRow) (hmiss : imperialRoster db m = [] ∨ rebelRoster db m = []) :
    processPlayerMatch db k st m = st := by
  unfold processPlayerMatch
  simp only
  rcases hmiss with h | h <;> rw [h] <;> simp

theorem processRoleMatch_skip (db : Db) (k : ℝ) (st : RoleEngineState)
    (m : MatchRow) (hmiss : imperialRoster db m = [] ∨ rebelRoster db m = []) :
    processRoleMatch db k st m = st := by
  unfold processRoleMatch
  simp only
  rcases hmiss with h | h <;> rw [h] <;> simp

theorem processTeamMatch_appends (db : Db) (k : ℝ) (st : TeamEngineState)
    (m : MatchRow) :
    ∃ ev, (processTeamMatch db k st m).history = st.history ++ [ev] ∧
      ev.matchId = m.id := by
  unfold processTeamMatch
  exact ⟨_, rfl, rfl⟩

/-- C5 (amended): a decisive match with one faction's roster entirely
missing is skipped by the player pools and by all role pools (no rating
change, no history event) and processing continues with the remaining
matches; the TEAM pool, however, never consults rosters and still updates
and records such a match. -/
theorem c5_missing_roster (db : Db) (k : ℝ) (m : MatchRow)
    (hdec : decisiveB m = true)
    (hmiss : imperialRoster db m = [] ∨ rebelRoster db m = []) :
    (∀ st, processPlayerMatch db k st m = st) ∧
    (∀ st, processRoleMatch db k st m = st) ∧
    (∀ init pre post, processPlayerMatches db k init (pre ++ m :: post) =
        processPlayerMatches db k init (pre ++ post)) ∧
    (∀ init pre post, processRoleMatches db k init (pre ++ m :: post) =
        processRoleMatches db k init (pre ++ post)) ∧
    (∀ st, ∃ ev, (processTeamMatch db k st m).history = st.history ++ [ev] ∧
        ev.matchId = m.id) := by
  refine ⟨fun st => processPlayerMatch_skip db k st m hmiss,
    fun st => processRoleMatch_skip db k st m hmiss, ?_, ?_,
    fun st => processTeamMatch_appends db k st m⟩
  · intro init pre post
    unfold processPlayerMatches
    rw [List.foldl_append, List.foldl_append, List.foldl_cons,
      processPlayerMatch_skip db k _ m hmiss]
  · intro init pre post
    unfold processRoleMatches
    rw [List.foldl_append, List.foldl_append, List.foldl_cons,
      processRoleMatch_skip db k _ m hmiss]

/-- C5 counterexample: the claim says a decisive match with a missing
roster produces no history event in the team pool; but `generate_elo_ladder`
never consults rosters, and this roster-less decisive match yields exactly
one team-pool history event. -/
theorem c5_counterexample :
    imperialRoster rosterlessDb rosterlessMatch = [] ∧
    decisiveB rosterlessMatch = true ∧
    (teamEngineFinal rosterlessDb 1000 32 "team").history.length = 1 := by
  refine ⟨by decide, by decide, ?_⟩
  have hstream : teamMatchStream rosterlessDb "team" = [rosterlessMatch] := by
    unfold teamMatchStream
    have hfilter : rosterlessDb.matchTable.filter
        (teamQueryPred rosterlessDb "team") = [rosterlessMatch] := by decide
    rw [hfilter]
    exact List.perm_singleton.1 (List.mergeSort_perm [rosterlessMatch] _)
  unfold teamEngineFinal processTeamMatches
  rw [hstream]
  simp only [List.foldl_cons, List.foldl_nil]
  obtain ⟨ev, hev, _⟩ := processTeamMatch_appends rosterlessDb 32
    (initialTeamState 1000) rosterlessMatch
  rw [hev]
  rfl

theorem c5_missing_roster_witness :
    decisiveB rosterlessMatch = true ∧
    imperialRoster rosterlessDb rosterlessMatch = [] ∧
    (∀ st, processPlayerMatch rosterlessDb 32 st rosterlessMatch = st) ∧
    (∀ st, ∃ ev, (processTeamMatch rosterlessDb 32 st rosterlessMatch).history =
        st.history ++ [ev] ∧ ev.matchId = rosterlessMatch.id) := by
  have h := c5_missing_roster rosterlessDb 32 rosterlessMatch (by decide)
    (Or.inl (by decide))
  exact ⟨by decide, by decide, h.1, h.2.2.2.2⟩

/-! ### Ladder membership -/

theorem playerLadder_mem_iff (db : Db) (s k : ℝ) (mt : String) (pid : Nat) :
    (∃ e ∈ playerLadder db s k mt, e.playerId = pid) ↔
      ∃ pl ∈ db.players, pl.id = pid ∧ 0 < playerMatchesPlayed db mt pid := by
  unfold playerLadder
  constructor
  · rintro ⟨e, he, heid⟩
    have he2 : e ∈ playerLadderUnsorted db mt
        (playerEngineFinal db s k mt).ratings :=
      ((List.mergeSort_perm _ _).mem_iff).1 he
    unfold playerLadderUnsorted at he2
    obtain ⟨pl, hpl, hfe⟩ := List.mem_filterMap.1 he2
    by_cases hp : playerMatchesPlayed db mt pl.id > 0
    · rw [if_pos hp] at hfe
      injection hfe with hfe
      have hplid : e.playerId = pl.id := by rw [← hfe]; rfl
      rw [heid] at hplid
      exact ⟨pl, hpl, hplid.symm, hplid ▸ hp⟩
    · rw [if_neg hp] at hfe
      exact absurd hfe (by simp)
  · rintro ⟨pl, hpl, hplid, hp⟩
    have hp' : playerMatchesPlayed db mt pl.id > 0 := by rw [hplid]; exact hp
    refine ⟨playerLadderEntryFor db mt (playerEngineFinal db s k mt).ratings pl,
      ((List.mergeSort_perm _ _).mem_iff).2 ?_, hplid⟩
    unfold playerLadderUnsorted
    exact List.mem_filterMap.2 ⟨pl, hpl, by rw [if_pos hp']⟩

theorem teamLadder_mem_iff (db : Db) (s k : ℝ) (mt : String) (tid : Nat) :
    (∃ e ∈ teamLadder db s k mt, e.teamId = tid) ↔ ∃ t ∈ db.teams, t.id = tid := by
  unfold teamLadder
  constructor
  · rintro ⟨e, he, heid⟩
    have he2 : e ∈ teamLadderUnsorted db mt
        (teamEngineFinal db s k mt).ratings :=
      ((List.mergeSort_perm _ _).mem_iff).1 he
    unfold teamLadderUnsorted at he2
    obtain ⟨t, ht, hfe⟩ := List.mem_map.1 he2
    refine ⟨t, ht, ?_⟩
    rw [← heid, ← hfe]
    rfl
  · rintro ⟨t, ht, htid⟩
    refine ⟨teamLadderEntryFor db mt (teamEngineFinal db s k mt).ratings t,
      ((List.mergeSort_perm _ _).mem_iff).2 ?_, htid⟩
    unfold teamLadderUnsorted
    exact List.mem_map_of_mem _ ht

theorem rankedPlayerLadder_map_snd (db : Db) (s k : ℝ) (mt : String) :
    (rankedPlayerLadder db s k mt).map Prod.snd = playerLadder db s k mt := by
  unfold rankedPlayerLadder
  rw [List.map_map]
  have h : (Prod.snd ∘ fun p : Nat × PlayerLadderEntry => (p.1 + 1, p.2)) =
      Prod.snd := rfl
  rw [h, List.enum_map_snd]

theorem rankedTeamLadder_map_snd (db : Db) (s k : ℝ) (mt : String) :
    (rankedTeamLadder db s k mt).map Prod.snd = teamLadder db s k mt := by
  unfold rankedTeamLadder
  rw [List.map_map]
  have h : (Prod.snd ∘ fun p : Nat × TeamLadderEntry => (p.1 + 1, p.2)) =
      Prod.snd := rfl
  rw [h, List.enum_map_snd]

/-- C6 (amended): the player ladders contain a row for a player iff the
player appears in the `players` table and has at least one decisive match
of the ladder's type; the TEAM ladder, however, contains a row for every
team of the `teams` table, with no activity requirement. -/
theorem c6_ladder_membership (db : Db) (s k : ℝ) (mt : String) :
    (∀ pid, (∃ e ∈ rankedPlayerLadder db s k mt, e.2.playerId = pid) ↔
        ∃ pl ∈ db.players, pl.id = pid ∧ 0 < playerMatchesPlayed db mt pid) ∧
    (∀ tid, (∃ e ∈ rankedTeamLadder db s k mt, e.2.teamId = tid) ↔
        ∃ t ∈ db.teams, t.id = tid) := by
  constructor
  · intro pid
    rw [← playerLadder_mem_iff db s k mt pid, ← rankedPlayerLadder_map_snd db s k mt]
    constructor
    · rintro ⟨e, he, heid⟩
      exact ⟨e.2, List.mem_map_of_mem Prod.snd he, heid⟩
    · rintro ⟨e2, he2, heid⟩
      obtain ⟨e, he, rfl⟩ := List.mem_map.1 he2
      exact ⟨e, he, heid⟩
  · intro tid
    rw [← teamLadder_mem_iff db s k mt tid, ← rankedTeamLadder_map_snd db s k mt]
    constructor
    · rintro ⟨e, he, heid⟩
      exact ⟨e.2, List.mem_map_of_mem Prod.snd he, heid⟩
    · rintro ⟨e2, he2, heid⟩
      obtain ⟨e, he, rfl⟩ := List.mem_map.1 he2
      exact ⟨e, he, heid⟩

/-- C6 counterexample: team 7 has zero qualifying decisive matches, yet
`generate_elo_ladder` emits a ladder row for it (a zero-activity
placeholder), because the team-ladder loop pre-seeds every team into
`elo_ratings` and has no `matches_played > 0` gate. -/
theorem c6_counterexample :
    teamMatchesPlayed idleTeamDb "team" 7 = 0 ∧
    ∃ e ∈ rankedTeamLadder idleTeamDb 1000 32 "team",
      e.2.teamId = 7 ∧ e.2.matchesPlayed = 0 := by
  refine ⟨rfl, ?_⟩
  have hsorted : teamLadder idleTeamDb 1000 32 "team" =
      [teamLadderEntryFor idleTeamDb "team"
        (teamEngineFinal idleTeamDb 1000 32 "team").ratings ⟨7, "Idle", none, 0, 0⟩] := by
    unfold teamLadder
    exact List.perm_singleton.1 (List.mergeSort_perm _ _)
  refine ⟨(1, teamLadderEntryFor idleTeamDb "team"
      (teamEngineFinal idleTeamDb 1000 32 "team").ratings ⟨7, "Idle", none, 0, 0⟩), ?_, rfl, rfl⟩
  unfold rankedTeamLadder
  rw [hsorted]
  exact List.mem_singleton.2 rfl

/-! ### Match-table preservation through the processors -/

theorem get_or_create_season_matchTable (db : Db) (sn : String) :
    (get_or_create_season db sn).2.matchTable = db.matchTable := by
  unfold get_or_create_season
  cases db.seasons.find? (fun s => s.name == sn) <;> rfl

theorem get_or_create_team_matchTable
    (tf : List RefTeam → String → Option RefTeam) (st : ProcState) (tn : String) :
    (get_or_create_team tf st tn).2.db.matchTable = st.db.matchTable := by
  unfold get_or_create_team
  dsimp only
  repeat' split
  all_goals rfl

theorem statsDbResolve_matchTable (hf : String → String) (st : ProcState)
    (pn : String) (rid : Option Nat) (c : String) :
    (statsDbResolve hf st pn rid c).2.db.matchTable = st.db.matchTable := by
  unfold statsDbResolve
  dsimp only
  repeat' split
  all_goals rfl

theorem get_or_create_player_matchTable (hf : String → String)
    (ff : List RefPlayer → String → List RefPlayer) (st : ProcState)
    (pn : String) (inputs : List String) (e : ResolutionEntry)
    (st1 : ProcState) (inputs1 : List String)
    (h : get_or_create_player hf ff st pn inputs = some (e, st1, inputs1)) :
    st1.db.matchTable = st.db.matchTable := by
  unfold get_or_create_player at h
  split at h
  · simp only [Option.some.injEq, Prod.mk.injEq] at h
    rw [← h.2.1]
  · split at h
    · simp only [Option.some.injEq, Prod.mk.injEq] at h
      rw [← h.2.1]
      exact statsDbResolve_matchTable hf st pn none pn
    · split at h
      · simp only [Option.some.injEq, Prod.mk.injEq] at h
        rw [← h.2.1]
        exact statsDbResolve_matchTable _ _ _ _ _
      · dsimp only at h
        split at h
        · exact absurd h (by simp)
        · simp only [Option.some.injEq, Prod.mk.injEq] at h
          rw [← h.2.1]
        · simp only [Option.some.injEq, Prod.mk.injEq] at h
          rw [← h.2.1]
          exact statsDbResolve_matchTable _ _ _ _ _

theorem process_player_stats_matchTable (hf : String → String)
    (ff : List RefPlayer → String → List RefPlayer) (st : ProcState)
    (matchId teamId : Nat) (faction : String) (pd : RawPlayer)
    (mt : Option String) (inputs : List String) (st' : ProcState)
    (inputs' : List String)
    (h : process_player_stats hf ff st matchId teamId faction pd mt inputs =
      some (st', inputs')) :
    st'.db.matchTable = st.db.matchTable := by
  unfold process_player_stats at h
  simp only [pure] at h
  repeat' split at h
  all_goals first
    | (simp only [Option.some.injEq, Prod.mk.injEq] at h
       rw [← h.1]
       try dsimp only
       exact get_or_create_player_matchTable _ _ _ _ _ _ _ _ (by assumption))
    | simp at h

theorem processSide_matchTable (hf : String → String)
    (ff : List RefPlayer → String → List RefPlayer) (matchId teamId : Nat)
    (faction : String) (mt : Option String) (roster : List RawPlayer) :
    ∀ (st : ProcState) (inputs : List String) (st' : ProcState)
      (inputs' : List String),
      processSide hf ff matchId teamId faction mt st inputs roster =
        some (st', inputs') →
      st'.db.matchTable = st.db.matchTable := by
  induction roster with
  | nil =>
    intro st inputs st' inputs' h
    unfold processSide at h
    simp only [Option.some.injEq, Prod.mk.injEq] at h
    rw [← h.1]
  | cons pd rest ih =>
    intro st inputs st' inputs' h
    unfold processSide at h
    split at h
    · exact absurd h (by simp)
    case h_2 st1 inputs1 heq =>
      have h1 : st1.db.matchTable = st.db.matchTable :=
        process_player_stats_matchTable hf ff st matchId teamId faction pd mt
          inputs st1 inputs1 heq
      rw [← h1]
      exact ih st1 inputs1 st' inputs' h

theorem process_match_data_appends (hf : String → String)
    (ff : List RefPlayer → String → List RefPlayer)
    (tf : List RefTeam → String → Option RefTeam)
    (dOf : String → Option String) (now : String) (st : ProcState)
    (seasonName filename : String) (md : RawMatch) (mta : Option String)
    (inputs : List String) (st' : ProcState) (inputs' : List String)
    (h : process_match_data hf ff tf dOf now st seasonName filename md mta
      inputs = some (st', inputs')) :
    ∃ row : MatchRow, st'.db.matchTable = st.db.matchTable ++ [row] ∧
      row.winner = normalizeWinner (md.matchResult.getD "UNKNOWN") := by
  unfold process_match_data at h
  simp only [pure] at h
  by_cases hw1 : normalizeWinner (md.matchResult.getD "UNKNOWN") = "IMPERIAL"
  · simp only [if_pos hw1] at h
    repeat' split at h
    all_goals first
      | (rename_i st3 inputs4 heq
         have h1 := processSide_matchTable _ _ _ _ _ _ _ _ _ _ _ h
         have h2 := processSide_matchTable _ _ _ _ _ _ _ _ _ _ _ heq
         have hmt := h1.trans h2
         dsimp only at hmt
         rw [get_or_create_team_matchTable, get_or_create_team_matchTable] at hmt
         dsimp only at hmt
         rw [get_or_create_season_matchTable] at hmt
         exact ⟨_, hmt, rfl⟩)
      | simp at h
  · by_cases hw2 : normalizeWinner (md.matchResult.getD "UNKNOWN") = "REBEL"
    · simp only [if_neg hw1, if_pos hw2] at h
      repeat' split at h
      all_goals first
        | (rename_i st3 inputs4 heq
           have h1 := processSide_matchTable _ _ _ _ _ _ _ _ _ _ _ h
           have h2 := processSide_matchTable _ _ _ _ _ _ _ _ _ _ _ heq
           have hmt := h1.trans h2
           dsimp only at hmt
           rw [get_or_create_team_matchTable, get_or_create_team_matchTable] at hmt
           dsimp only at hmt
           rw [get_or_create_season_matchTable] at hmt
           exact ⟨_, hmt, rfl⟩)
        | simp at h
    · simp only [if_neg hw1, if_neg hw2] at h
      repeat' split at h
      all_goals first
        | (rename_i st3 inputs4 heq
           have h1 := processSide_matchTable _ _ _ _ _ _ _ _ _ _ _ h
           have h2 := processSide_matchTable _ _ _ _ _ _ _ _ _ _ _ heq
           have hmt := h1.trans h2
           dsimp only at hmt
           rw [get_or_create_team_matchTable, get_or_create_team_matchTable] at hmt
           dsimp only at hmt
           rw [get_or_create_season_matchTable] at hmt
           exact ⟨_, hmt, rfl⟩)
        | simp at h

/-! ### Non-decisive matches are excluded from every engine -/

theorem playerQueryPred_nondecisive (db : Db) (mt : String) (m : MatchRow)
    (hdec : decisiveB m = false) : playerQueryPred db mt m = false := by
  simp [playerQueryPred, hdec]

theorem teamQueryPred_nondecisive (db : Db) (mt : String) (m : MatchRow)
    (hdec : decisiveB m = false) : teamQueryPred db mt m = false := by
  simp [teamQueryPred, hdec]

theorem combinedQueryPred_nondecisive (db : Db) (m : MatchRow)
    (hdec : decisiveB m = false) : combinedQueryPred db m = false := by
  simp [combinedQueryPred, hdec]

theorem playerMatchStream_drop_nondecisive (db : Db) (pre post : List MatchRow)
    (m : MatchRow) (mt : String) (htable : db.matchTable = pre ++ m :: post)
    (hdec : decisiveB m = false) :
    playerMatchStream db mt =
      playerMatchStream { db with matchTable := pre ++ post } mt := by
  show (db.matchTable.filter (playerQueryPred db mt)).mergeSort
      (fun a b => decide (dateIdLe a b)) =
    ((pre ++ post).filter (playerQueryPred db mt)).mergeSort
      (fun a b => decide (dateIdLe a b))
  rw [htable, List.filter_append, List.filter_append, List.filter_cons,
    playerQueryPred_nondecisive db mt m hdec]
  rfl

theorem teamMatchStream_drop_nondecisive (db : Db) (pre post : List MatchRow)
    (m : MatchRow) (mt : String) (htable : db.matchTable = pre ++ m :: post)
    (hdec : decisiveB m = false) :
    teamMatchStream db mt =
      teamMatchStream { db with matchTable := pre ++ post } mt := by
  show (db.matchTable.filter (teamQueryPred db mt)).mergeSort
      (fun a b => decide (dateIdLe a b)) =
    ((pre ++ post).filter (teamQueryPred db mt)).mergeSort
      (fun a b => decide (dateIdLe a b))
  rw [htable, List.filter_append, List.filter_append, List.filter_cons,
    teamQueryPred_nondecisive db mt m hdec]
  rfl

theorem combinedMatchStream_drop_nondecisive (db : Db) (pre post : List MatchRow)
    (m : MatchRow) (htable : db.matchTable = pre ++ m :: post)
    (hdec : decisiveB m = false) :
    combinedMatchStream db =
      combinedMatchStream { db with matchTable := pre ++ post } := by
  show (db.matchTable.filter (combinedQueryPred db)).mergeSort
      (fun a b => decide (dateLe a b)) =
    ((pre ++ post).filter (combinedQueryPred db)).mergeSort
      (fun a b => decide (dateLe a b))
  rw [htable, List.filter_append, List.filter_append, List.filter_cons,
    combinedQueryPred_nondecisive db m hdec]
  rfl

/-- C4: a match whose normalized outcome is unknown is still inserted into
the `matches` table by `process_match_data` (with `winner = "UNKNOWN"`),
but — because every ladder query filters
`WHERE m.winner IN ('IMPERIAL', 'REBEL')` — it is excluded from the player,
team, combined and role engines: removing it from the match table changes
no engine's final ratings or history. -/
theorem c4_unknown_match_stored_but_excluded
    (hf : String → String) (ff : List RefPlayer → String → List RefPlayer)
    (tf : List RefTeam → String → Option RefTeam)
    (dOf : String → Option String) (now : String) (st st' : ProcState)
    (seasonName filename : String) (md : RawMatch) (mta : Option String)
    (inputs inputs' : List String) (db : Db) (pre post : List MatchRow)
    (m : MatchRow) (s k : ℝ) (mt : String)
    (hrun : process_match_data hf ff tf dOf now st seasonName filename md mta
      inputs = some (st', inputs'))
    (htable : db.matchTable = pre ++ m :: post) (hdec : decisiveB m = false) :
    (∃ row : MatchRow, st'.db.matchTable = st.db.matchTable ++ [row] ∧
      row.winner = normalizeWinner (md.matchResult.getD "UNKNOWN")) ∧
    playerEngineFinal db s k mt =
      playerEngineFinal { db with matchTable := pre ++ post } s k mt ∧
    teamEngineFinal db s k mt =
      teamEngineFinal { db with matchTable := pre ++ post } s k mt ∧
    combinedEngineFinal db s k =
      combinedEngineFinal { db with matchTable := pre ++ post } s k ∧
    roleEngineFinal db s k mt =
      roleEngineFinal { db with matchTable := pre ++ post } s k mt := by
  refine ⟨process_match_data_appends hf ff tf dOf now st seasonName filename md
    mta inputs st' inputs' hrun, ?_, ?_, ?_, ?_⟩
  · show processPlayerMatches db k (initialPlayerState s)
        (playerMatchStream db mt) =
      processPlayerMatches db k (initialPlayerState s)
        (playerMatchStream { db with matchTable := pre ++ post } mt)
    rw [playerMatchStream_drop_nondecisive db pre post m mt htable hdec]
  · show processTeamMatches db k (initialTeamState s)
        (teamMatchStream db mt) =
      processTeamMatches db k (initialTeamState s)
        (teamMatchStream { db with matchTable := pre ++ post } mt)
    rw [teamMatchStream_drop_nondecisive db pre post m mt htable hdec]
  · show processTeamMatches db k (initialTeamState s)
        (combinedMatchStream db) =
      processTeamMatches db k (initialTeamState s)
        (combinedMatchStream { db with matchTable := pre ++ post })
    rw [combinedMatchStream_drop_nondecisive db pre post m htable hdec]
  · show processRoleMatches db k (initialRoleState s)
        (playerMatchStream db mt) =
      processRoleMatches db k (initialRoleState s)
        (playerMatchStream { db with matchTable := pre ++ post } mt)
    rw [playerMatchStream_drop_nondecisive db pre post m mt htable hdec]

theorem c4_unknown_match_stored_but_excluded_witness :
    (∃ row : MatchRow,
      (⟨c4Db, none, []⟩ : ProcState).db.matchTable =
        (⟨emptyDb, none, []⟩ : ProcState).db.matchTable ++ [row] ∧
      row.winner =
        normalizeWinner (((⟨some "draw", none, none, [], []⟩ :
          RawMatch)).matchResult.getD "UNKNOWN")) ∧
    playerEngineFinal c4Db 1000 32 "team" =
      playerEngineFinal { c4Db with matchTable := [] ++ [] } 1000 32 "team" ∧
    teamEngineFinal c4Db 1000 32 "team" =
      teamEngineFinal { c4Db with matchTable := [] ++ [] } 1000 32 "team" ∧
    combinedEngineFinal c4Db 1000 32 =
      combinedEngineFinal { c4Db with matchTable := [] ++ [] } 1000 32 ∧
    roleEngineFinal c4Db 1000 32 "team" =
      roleEngineFinal { c4Db with matchTable := [] ++ [] } 1000 32 "team" :=
  c4_unknown_match_stored_but_excluded (fun _ => "") (fun _ _ => [])
    (fun _ _ => none) (fun _ => none) "2024-01-01 00:00:00" ⟨emptyDb, none, []⟩
    ⟨c4Db, none, []⟩ "S" "f.png" ⟨some "draw", none, none, [], []⟩
    (some "team") ["", "TeamA", "TeamB"] [] c4Db [] [] c4Match 1000 32 "team"
    rfl rfl rfl

/-- C7 counterexample, both directions of the claimed iff fail on the
real lookup.  Misses: `bob` matches the stored alias `Bob`
case-insensitively, yet `get_player` misses it — the single-token alias
branch `p.alias = ?` compares case-sensitively.  False matches: the raw
name is interpolated into the `LIKE` patterns, so its `_` acts as a
wildcard — `Pl_yer1` is not a whole token of `Player1,Xyz` under any case
folding, yet `get_player` returns the row (the `_` matches the `a`). -/
theorem c7_counterexample :
    ((∃ p ∈ c7Ref.players, ∃ a, p.aliasText = some a ∧
        upperStr (sqlTrim a) = upperStr "bob") ∧
      c7Ref.get_player "bob" = none) ∧
    ((∀ t ∈ pySplitComma "Player1,Xyz", upperStr t ≠ upperStr "Pl_yer1") ∧
      (c7RefW.get_player "Pl_yer1").isSome = true) := by decide

theorem get_player_isSome_iff_witness :
    (',' ∉ "alice".data ∧ '%' ∉ "alice".data ∧ '_' ∉ "alice".data) ∧
    ((c7Ref.get_player "alice").isSome ↔
      ∃ p ∈ c7Ref.players,
        upperStr (sqlTrim p.name) = upperStr "alice" ∨
          aliasSpecMatch "alice" p) :=
  ⟨⟨by decide, by decide, by decide⟩,
   get_player_isSome_iff c7Ref "alice" (by decide) (by decide) (by decide)⟩

/-- C9 counterexample: adding the alias `x,y` twice is NOT a no-op — the
membership test parses the stored list on commas, so the literal `x,y` is
never found and is re-appended by every call. -/
theorem c9_counterexample :
    (c9Ref.add_player_alias 1 "x,y").1 = true ∧
    ((c9Ref.add_player_alias 1 "x,y").2.add_player_alias 1 "x,y").1 = true ∧
    ((c9Ref.add_player_alias 1 "x,y").2.add_player_alias 1 "x,y").2 ≠
      (c9Ref.add_player_alias 1 "x,y").2 := by decide

theorem add_player_alias_idem_witness :
    ((∃ p ∈ c9Ref.players, p.id = 1) ∧ pyStrip "x" ≠ "" ∧
      ',' ∉ (pyStrip "x").data) ∧
    ((c9Ref.add_player_alias 1 "x").1 = true ∧
     ((c9Ref.add_player_alias 1 "x").2.add_player_alias 1 "x").1 = true ∧
     ((c9Ref.add_player_alias 1 "x").2.add_player_alias 1 "x").2 =
       (c9Ref.add_player_alias 1 "x").2) :=
  ⟨⟨by decide, by decide, by decide⟩,
   add_player_alias_idem c9Ref 1 "x" (by decide) (by decide) (by decide)⟩

/-- C8 (amended): there is no `DuplicateNameError` anywhere in
`add_player`.  A name colliding with an existing PRIMARY name silently
returns that player's id and leaves the registry unchanged; any other name
— even one colliding with an existing alias — appends a new row and
returns the fresh id.  The call always returns an id, never an error. -/
theorem c8_add_player_silent (ref : RefDb) (name : String) (tid : Option Nat)
    (al : Option String) (role : Option String) (srcF : Option String) :
    (ref.add_player name tid al role srcF).1.isSome = true ∧
    ((∃ p ∈ ref.players, p.name = name) →
      (ref.add_player name tid al role srcF).2 = ref ∧
      ∃ p ∈ ref.players, p.name = name ∧
        (ref.add_player name tid al role srcF).1 = some p.id) ∧
    ((∀ p ∈ ref.players, p.name ≠ name) →
      (ref.add_player name tid al role srcF).1 = some ref.nextPlayerId ∧
      (ref.add_player name tid al role srcF).2.players =
        ref.players ++ [⟨ref.nextPlayerId, name, tid, validateRole role, al,
          srcF⟩]) := by
  unfold RefDb.add_player
  cases hf : ref.players.find? (fun p => p.name == name) with
  | some p =>
    have hpmem := List.mem_of_find?_eq_some hf
    have hpname : p.name = name := by simpa using List.find?_some hf
    refine ⟨rfl, fun _ => ⟨rfl, p, hpmem, hpname, rfl⟩, fun hno => ?_⟩
    exact absurd hpname (hno p hpmem)
  | none =>
    rw [List.find?_eq_none] at hf
    refine ⟨rfl, fun hex => ?_, fun _ => ⟨rfl, rfl⟩⟩
    obtain ⟨p, hpmem, hpname⟩ := hex
    exact absurd (by simp [hpname]) (hf p hpmem)

/-- C8 counterexample: creating a player named `Bob` while `Bob` is an
existing ALIAS of `Alice` does not fail and does not leave the registry
unchanged — a second, duplicate identity is silently created. -/
theorem c8_counterexample :
    (∃ p ∈ c7Ref.players, p.aliasText = some "Bob") ∧
    (c7Ref.add_player "Bob" none none none none).1 = some 2 ∧
    (c7Ref.add_player "Bob" none none none none).2.players.length = 2 := by
  decide

theorem c8_add_player_silent_witness :
    ((∃ p ∈ c7Ref.players, p.name = "Alice") ∧
      (∀ p ∈ c7Ref.players, p.name ≠ "Bob")) ∧
    ((c7Ref.add_player "Alice" none none none none).2 = c7Ref ∧
      ∃ p ∈ c7Ref.players, p.name = "Alice" ∧
        (c7Ref.add_player "Alice" none none none none).1 = some p.id) ∧
    ((c7Ref.add_player "Bob" none none none none).1 = some c7Ref.nextPlayerId ∧
      (c7Ref.add_player "Bob" none none none none).2.players =
        c7Ref.players ++ [⟨c7Ref.nextPlayerId, "Bob", none, validateRole none,
          none, none⟩]) :=
  ⟨⟨by decide, by decide⟩,
   (c8_add_player_silent c7Ref "Alice" none none none none).2.1 (by decide),
   (c8_add_player_silent c7Ref "Bob" none none none none).2.2 (by decide)⟩

/-! ### Resolution caching (`get_or_create_player`) -/

theorem find?_cacheUpdate (n : String) (e : ResolutionEntry) :
    ∀ c : List (String × ResolutionEntry), c.any (fun x => x.1 == n) = true →
      (c.map (fun x => if x.1 == n then (n, e) else x)).find?
        (fun x => x.1 == n) = some (n, e) := by
  intro c
  induction c with
  | nil => intro h; simp at h
  | cons hd tl ih =>
    intro h
    by_cases hh : (hd.1 == n) = true
    · simp only [List.map_cons, if_pos hh]
      rw [List.find?_cons_of_pos _ (by simp)]
    · simp only [List.map_cons, if_neg hh]
      rw [List.find?_cons_of_neg _ (by simpa using hh)]
      apply ih
      simpa [hh] using h

theorem find?_cacheAppend (n : String) (e : ResolutionEntry) :
    ∀ c : List (String × ResolutionEntry), c.any (fun x => x.1 == n) = false →
      (c ++ [(n, e)]).find? (fun x => x.1 == n) = some (n, e) := by
  intro c
  induction c with
  | nil => intro _; rw [List.nil_append, List.find?_cons_of_pos _ (by simp)]
  | cons hd tl ih =>
    intro h
    rw [List.any_cons, Bool.or_eq_false_iff] at h
    rw [List.cons_append, List.find?_cons_of_neg _ (by simp [h.1])]
    exact ih h.2

theorem lookupCache_cacheInsert (c : List (String × ResolutionEntry))
    (n : String) (e : ResolutionEntry) :
    lookupCache (cacheInsert c n e) n = some e := by
  unfold lookupCache cacheInsert
  by_cases h : c.any (fun x => x.1 == n) = true
  · rw [if_pos h, find?_cacheUpdate n e c h]
    rfl
  · rw [if_neg h, find?_cacheAppend n e c (Bool.eq_false_iff.2 (fun hc => h (by rw [hc])))]
    rfl

theorem statsDbResolve_caches (hf : String → String) (st : ProcState)
    (pn : String) (rid : Option Nat) (c : String) :
    lookupCache (statsDbResolve hf st pn rid c).2.cache pn =
      some (statsDbResolve hf st pn rid c).1 := by
  unfold statsDbResolve
  dsimp only
  repeat' split
  all_goals exact lookupCache_cacheInsert _ _ _

/-- C10: once a raw player name has been resolved — including a skip — the
result is cached: the returned state's cache maps the raw name to the
returned entry; every later `get_or_create_player` call on the same raw
name returns the cached entry with the state and input stream untouched
(no re-prompting); and a raw name cached as skipped (`playerId = none`)
makes `process_player_stats` drop the stat record entirely while changing
nothing. -/
theorem c10_cached_resolution (hf : String → String)
    (ff : List RefPlayer → String → List RefPlayer) (st : ProcState)
    (name : String) (inputs : List String) (e : ResolutionEntry)
    (st1 : ProcState) (inputs1 : List String)
    (h : get_or_create_player hf ff st name inputs = some (e, st1, inputs1)) :
    lookupCache st1.cache name = some e ∧
    (∀ inputs2, get_or_create_player hf ff st1 name inputs2 =
      some (e, st1, inputs2)) ∧
    (e.playerId = none →
      ∀ (matchId teamId : Nat) (faction : String) (pd : RawPlayer)
        (mt : Option String) (inputs2 : List String), pd.name = name →
        process_player_stats hf ff st1 matchId teamId faction pd mt inputs2 =
          some (st1, inputs2)) := by
  have hcache : lookupCache st1.cache name = some e := by
    unfold get_or_create_player at h
    split at h
    · simp only [Option.some.injEq, Prod.mk.injEq] at h
      rw [← h.2.1, ← h.1]
      assumption
    · split at h
      · simp only [Option.some.injEq, Prod.mk.injEq] at h
        rw [← h.2.1, ← h.1]
        exact statsDbResolve_caches hf st name none name
      · split at h
        · simp only [Option.some.injEq, Prod.mk.injEq] at h
          rw [← h.2.1, ← h.1]
          exact statsDbResolve_caches _ _ _ _ _
        · dsimp only at h
          split at h
          · exact absurd h (by simp)
          · simp only [Option.some.injEq, Prod.mk.injEq] at h
            rw [← h.2.1, ← h.1]
            exact lookupCache_cacheInsert _ _ _
          · simp only [Option.some.injEq, Prod.mk.injEq] at h
            rw [← h.2.1, ← h.1]
            exact statsDbResolve_caches _ _ _ _ _
  have hreplay : ∀ inputs2, get_or_create_player hf ff st1 name inputs2 =
      some (e, st1, inputs2) := by
    intro inputs2
    unfold get_or_create_player
    rw [hcache]
  refine ⟨hcache, hreplay, ?_⟩
  intro hskip matchId teamId faction pd mt inputs2 hname
  unfold process_player_stats
  simp only [pure]
  rw [hname, hreplay inputs2]
  simp only [hskip]

theorem c10_cached_resolution_witness :
    (get_or_create_player (fun _ => "h") (fun _ _ => [])
        ⟨emptyDb, some c7Ref, []⟩ "Zed" ["s"] =
      some (⟨none, "Zed", none⟩, c10St1, [])) ∧
    (lookupCache c10St1.cache "Zed" = some ⟨none, "Zed", none⟩ ∧
     (∀ inputs2, get_or_create_player (fun _ => "h") (fun _ _ => [])
        c10St1 "Zed" inputs2 = some (⟨none, "Zed", none⟩, c10St1, inputs2)) ∧
     ((⟨none, "Zed", none⟩ : ResolutionEntry).playerId = none →
      ∀ (matchId teamId : Nat) (faction : String) (pd : RawPlayer)
        (mt : Option String) (inputs2 : List String), pd.name = "Zed" →
        process_player_stats (fun _ => "h") (fun _ _ => []) c10St1 matchId
          teamId faction pd mt inputs2 = some (c10St1, inputs2))) :=
  ⟨rfl, c10_cached_resolution (fun _ => "h") (fun _ _ => [])
    ⟨emptyDb, some c7Ref, []⟩ "Zed" ["s"] ⟨none, "Zed", none⟩ c10St1 [] rfl⟩
